import Mathlib

/-!
# Verification of the launch-observer payload reconciliation and UAT engine

This file gives a shallow embedding, in Lean 4, of the core data model and
operations of the launch-observer browser extension: the JSON-like value
model used by its payload pipeline, the body/query decoder, the path
resolver, the condition evaluator, the UAT rule engine and the body
replacement (reconciliation) rule.  JavaScript values that flow through
those functions are modelled by the inductive `JVal`; machine strings are
Lean `String`s with JavaScript's UTF-16 `length` modelled by `jsStrLen`;
JavaScript numbers are modelled by exact rationals extended with `NaN` and
signed infinities (`JsNum`).  Fallible operations return `Option`.

Theorems about these definitions follow the definitions.
-/

namespace LaunchObserver

/-! ## JavaScript-like values -/

/-- A JSON-like JavaScript value: `undefined`, `null`, booleans, (finite)
numbers, strings, arrays and plain objects.  Objects are ordered key/value
lists; the constructions in this file keep keys unique, mirroring
JavaScript object semantics.  Numbers are modelled as exact rationals
(every value produced by `JSON.parse` from a decimal literal is such a
rational). -/
inductive JVal where
  | undefined
  | jnull
  | jbool (b : Bool)
  | jnum (q : ℚ)
  | jstr (s : String)
  | jarr (elems : List JVal)
  | jobj (fields : List (String × JVal))

/-- JavaScript truthiness of a `JVal`. -/
def JVal.truthy : JVal → Bool
  | .undefined => false
  | .jnull => false
  | .jbool b => b
  | .jnum q => decide (q ≠ 0)
  | .jstr s => decide (s ≠ "")
  | .jarr _ => true
  | .jobj _ => true

/-- `typeof v === 'object'` (true for objects, arrays and `null`). -/
def JVal.isObjectType : JVal → Bool
  | .jnull => true
  | .jarr _ => true
  | .jobj _ => true
  | _ => false

/-- Named-property access `v[k]`: object key lookup (first match; object
construction keeps keys unique).  Named properties of arrays and of
primitives resolve to `undefined` here, matching how the embedded code
only reads data properties. -/
def JVal.getProp : JVal → String → JVal
  | .jobj fields, k => (fields.lookup k).getD .undefined
  | _, _ => .undefined

/-- `Object.keys(v).length` for the values on which the code calls it
(arrays yield their index keys, objects their field keys). -/
def JVal.objKeyCount : JVal → Nat
  | .jarr xs => xs.length
  | .jobj fields => fields.length
  | _ => 0

/-- Length of a character in UTF-16 code units. -/
def jsCharLen (c : Char) : Nat := if c.val < 0x10000 then 1 else 2

/-- JavaScript `String.prototype.length`: the number of UTF-16 code units. -/
def jsStrLen (s : String) : Nat := (s.data.map jsCharLen).sum

/-! ## Decimal printing and JavaScript numbers -/

/-- The character for one decimal digit. -/
def digitChar : ℕ → Char
  | 0 => '0' | 1 => '1' | 2 => '2' | 3 => '3' | 4 => '4'
  | 5 => '5' | 6 => '6' | 7 => '7' | 8 => '8' | _ => '9'

lemma digitChar_toNat (d : ℕ) (h : d < 10) : (digitChar d).toNat = 48 + d := by
  interval_cases d <;> decide

lemma digitChar_isDigit (d : ℕ) (h : d < 10) : (digitChar d).isDigit := by
  interval_cases d <;> decide

/-- The decimal digits of a natural number, most significant first
(the digits JavaScript's number-to-string conversion prints for a
non-negative integer). -/
def natToDigits (n : ℕ) : List Char :=
  if h : n < 10 then [digitChar n]
  else natToDigits (n / 10) ++ [digitChar (n % 10)]
termination_by n
decreasing_by exact Nat.div_lt_self (by omega) (by omega)

/-- Value of a most-significant-first digit list. -/
def digitsVal (ds : List Char) : ℕ :=
  ds.foldl (fun a c => 10 * a + (c.toNat - 48)) 0

lemma digitsVal_append (a b : List Char) :
    digitsVal (a ++ b) = b.foldl (fun a c => 10 * a + (c.toNat - 48)) (digitsVal a) := by
  simp [digitsVal, List.foldl_append]

lemma digitsVal_natToDigits (n : ℕ) : digitsVal (natToDigits n) = n := by
  induction n using Nat.strong_induction_on with
  | _ n ih =>
    rw [natToDigits]
    by_cases h : n < 10
    · simp only [h, dite_true, digitsVal, List.foldl_cons, List.foldl_nil]
      rw [digitChar_toNat n h]
      omega
    · simp only [h, dite_false, digitsVal_append]
      have hv := ih (n / 10) (Nat.div_lt_self (by omega) (by omega))
      have hc := digitChar_toNat (n % 10) (Nat.mod_lt _ (by omega))
      simp only [List.foldl_cons, List.foldl_nil, hv, hc]
      omega

lemma natToDigits_injective : Function.Injective natToDigits := by
  intro a b h
  have := digitsVal_natToDigits a
  rw [h, digitsVal_natToDigits] at this
  omega

lemma natToDigits_ne_nil (n : ℕ) : natToDigits n ≠ [] := by
  rw [natToDigits]
  by_cases h : n < 10 <;> simp [h]

lemma natToDigits_isDigit (n : ℕ) : ∀ c ∈ natToDigits n, c.isDigit := by
  induction n using Nat.strong_induction_on with
  | _ n ih =>
    rw [natToDigits]
    by_cases h : n < 10
    · simp only [h, dite_true, List.mem_singleton]
      rintro c rfl
      exact digitChar_isDigit n h
    · simp only [h, dite_false, List.mem_append, List.mem_singleton]
      rintro c (hc | rfl)
      · exact ih (n / 10) (Nat.div_lt_self (by omega) (by omega)) c hc
      · exact digitChar_isDigit (n % 10) (Nat.mod_lt _ (by omega))

/-- JavaScript string form of a non-negative integer. -/
def natToStr (n : ℕ) : String := ⟨natToDigits n⟩

/-- Fraction digits of `r / d` produced by repeated multiplication by ten,
stopping when the remainder reaches zero (all rationals printed by the
embedded code come from decimal literals, so their expansions terminate;
the fuel bounds the expansion). -/
def fracDigits : ℕ → ℕ → ℕ → List Char
  | _, _, 0 => []
  | r, d, fuel + 1 =>
    if r = 0 then []
    else digitChar (r * 10 / d) :: fracDigits (r * 10 % d) d fuel

/-- JavaScript string form of a rational number: sign, integer digits and,
for non-integers, a dot followed by the terminating decimal expansion. -/
def ratToJsString (q : ℚ) : String :=
  let sign := if q.num < 0 then "-" else ""
  if q.den = 1 then sign ++ natToStr q.num.natAbs
  else
    sign ++ natToStr (q.num.natAbs / q.den) ++ "." ++
      ⟨fracDigits (q.num.natAbs % q.den) q.den 64⟩

/-- A JavaScript number: `NaN`, the signed infinities, or a finite value
(modelled as an exact rational). -/
inductive JsNum where
  | nan
  | posInf
  | negInf
  | fin (q : ℚ)

/-- JavaScript `<` on numbers (`NaN` compares false with everything). -/
def JsNum.lt : JsNum → JsNum → Bool
  | .fin a, .fin b => decide (a < b)
  | .fin _, .posInf => true
  | .negInf, .fin _ => true
  | .negInf, .posInf => true
  | _, _ => false

/-- JavaScript `<=` on numbers (`NaN` compares false with everything). -/
def JsNum.le : JsNum → JsNum → Bool
  | .fin a, .fin b => decide (a ≤ b)
  | .fin _, .posInf => true
  | .negInf, .fin _ => true
  | .negInf, .posInf => true
  | .negInf, .negInf => true
  | .posInf, .posInf => true
  | _, _ => false

/-- `Number.isFinite`. -/
def JsNum.isFinite : JsNum → Bool
  | .fin _ => true
  | _ => false

/-- Whether a character counts as trimmable whitespace for `Number(string)`
(the common ASCII whitespace forms). -/
def isJsWs (c : Char) : Bool := c.isWhitespace

/-- Trim leading and trailing whitespace from a character list. -/
def jsTrim (l : List Char) : List Char :=
  ((l.dropWhile isJsWs).reverse.dropWhile isJsWs).reverse

/-- Numeric value of a most-significant-first decimal digit list. -/
def digitsToNat (ds : List Char) : ℕ := digitsVal ds

/-- The exact rational `(-1)^neg * I * 10^m`, built with integer
arithmetic and one normalising `mkRat` (so that it evaluates inside the
kernel). -/
def jsDecValue (neg : Bool) (I : ℕ) (m : ℤ) : ℚ :=
  let n : ℤ := if neg then -(I : ℤ) else (I : ℤ)
  if 0 ≤ m then mkRat (n * ((10 ^ m.toNat : ℕ) : ℤ)) 1
  else mkRat n (10 ^ (-m).toNat)

/-- Parse the decimal part of a JavaScript numeric string starting after
any sign: integer digits, optional fraction, optional exponent; the whole
remainder must be consumed.  Returns the combined digit value and the net
power of ten (exponent minus number of fraction digits). -/
def parseDecMagnitude (l : List Char) : Option (ℕ × ℤ) :=
  let (ip, rest) := l.span Char.isDigit
  let (fp, rest2) :=
    match rest with
    | '.' :: r => r.span Char.isDigit
    | _ => ([], rest)
  let rest3 := if rest = [] then [] else (if rest.head? = some '.' then rest2 else rest)
  if ip = [] ∧ fp = [] then none
  else
    let I := digitsToNat (ip ++ fp)
    match rest3 with
    | [] => some (I, -(fp.length : ℤ))
    | e :: r =>
      if e = 'e' ∨ e = 'E' then
        let (esign, r2) :=
          match r with
          | '+' :: t => ((1 : ℤ), t)
          | '-' :: t => ((-1 : ℤ), t)
          | t => ((1 : ℤ), t)
        let (ed, r3) := r2.span Char.isDigit
        if ed = [] ∨ r3 ≠ [] then none
        else some (I, esign * (digitsToNat ed : ℤ) - (fp.length : ℤ))
      else none

/-- Model of JavaScript `Number(string)`: trims whitespace, accepts the
empty string as `0`, an optional sign, `Infinity`, and decimal literals
with optional fraction and exponent; anything else is `NaN`.  (Hexadecimal
and other radix literals are outside the inputs this code base produces
and are not modelled.) -/
def jsStringToNumber (s : String) : JsNum :=
  let l := jsTrim s.data
  match l with
  | [] => .fin 0
  | _ =>
    let (neg, body) :=
      match l with
      | '-' :: t => (true, t)
      | '+' :: t => (false, t)
      | t => (false, t)
    if body = "Infinity".data then (if neg then .negInf else .posInf)
    else
      match parseDecMagnitude body with
      | some Im => .fin (jsDecValue neg Im.1 Im.2)
      | none => .nan

/-- `Number.isNaN`. -/
def JsNum.isNaN : JsNum → Bool
  | .nan => true
  | _ => false

/-- JavaScript `>`: `a > b` is `b < a`. -/
def JsNum.gt (a b : JsNum) : Bool := JsNum.lt b a

/-- JavaScript `>=`: `a >= b` is `b <= a`. -/
def JsNum.ge (a b : JsNum) : Bool := JsNum.le b a

/-- JavaScript `===` on numbers (`NaN` is not equal to itself). -/
def JsNum.seq : JsNum → JsNum → Bool
  | .fin a, .fin b => decide (a = b)
  | .posInf, .posInf => true
  | .negInf, .negInf => true
  | _, _ => false

/-! ## String forms of values -/

/-- Whether a value is `undefined` or `null`. -/
def JVal.isNullish : JVal → Bool
  | .undefined => true
  | .jnull => true
  | _ => false

mutual

/-- JavaScript `String(v)`.  Objects print as `[object Object]`; arrays
join their elements' string forms with commas. -/
def JVal.toJsString : JVal → String
  | .undefined => "undefined"
  | .jnull => "null"
  | .jbool b => if b then "true" else "false"
  | .jnum q => ratToJsString q
  | .jstr s => s
  | .jarr xs => String.intercalate "," (jarrElemStrings xs)
  | .jobj _ => "[object Object]"

/-- Element string forms used by array-to-string conversion: `null` and
`undefined` elements print as the empty string. -/
def jarrElemStrings : List JVal → List String
  | [] => []
  | .undefined :: rest => "" :: jarrElemStrings rest
  | .jnull :: rest => "" :: jarrElemStrings rest
  | v :: rest => v.toJsString :: jarrElemStrings rest

end

/-- JavaScript `Number(v)` coercion. -/
def JVal.toNumber : JVal → JsNum
  | .undefined => .nan
  | .jnull => .fin 0
  | .jbool b => .fin (if b then 1 else 0)
  | .jnum q => .fin q
  | .jstr s => jsStringToNumber s
  | v => jsStringToNumber v.toJsString

/-- Escape one character for a JSON string literal. -/
def jsonEscapeChar (c : Char) : List Char :=
  if c = '"' then ['\\', '"']
  else if c = '\\' then ['\\', '\\']
  else if c = '\n' then ['\\', 'n']
  else if c = '\r' then ['\\', 'r']
  else if c = '\t' then ['\\', 't']
  else if c.toNat = 8 then ['\\', 'b']
  else if c.toNat = 12 then ['\\', 'f']
  else if c.toNat < 32 then
    ['\\', 'u', '0', '0', digitChar (c.toNat / 16), digitChar (c.toNat % 16)]
  else [c]

/-- A JSON string literal for `s` (quote, escaped characters, quote). -/
def jsonQuote (s : String) : String :=
  ⟨'"' :: s.data.flatMap jsonEscapeChar ++ ['"']⟩

mutual

/-- `JSON.stringify` on JSON-like values (an `undefined` at the top level
serialises as `null` here; object fields holding `undefined` are omitted,
array elements holding `undefined` become `null`, as in JavaScript). -/
def jsonStringify : JVal → String
  | .undefined => "null"
  | .jnull => "null"
  | .jbool b => if b then "true" else "false"
  | .jnum q => ratToJsString q
  | .jstr s => jsonQuote s
  | .jarr xs => "[" ++ String.intercalate "," (jsonStringifyElems xs) ++ "]"
  | .jobj fields => "\x7b" ++ String.intercalate "," (jsonStringifyFields fields) ++ "\x7d"

/-- Array elements for `JSON.stringify`. -/
def jsonStringifyElems : List JVal → List String
  | [] => []
  | v :: rest => jsonStringify v :: jsonStringifyElems rest

/-- Object members for `JSON.stringify`; `undefined`-valued fields are
omitted. -/
def jsonStringifyFields : List (String × JVal) → List String
  | [] => []
  | (_, .undefined) :: rest => jsonStringifyFields rest
  | (k, v) :: rest => (jsonQuote k ++ ":" ++ jsonStringify v) :: jsonStringifyFields rest

end

/-! ## Path resolver (`resolve.js`, `part_004`) -/

/-- Split a character list at every separator character matched by `p`
(JavaScript `String.prototype.split` with a single-character or
character-class separator: `""` splits to `[""]`). -/
def splitOnPred (p : Char → Bool) : List Char → List (List Char)
  | [] => [[]]
  | c :: rest =>
    let r := splitOnPred p rest
    if p c then [] :: r
    else
      match r with
      | [] => [[c]]
      | h :: t => (c :: h) :: t

/-- A token of a parsed path: an object key or a numeric index. -/
inductive PathTok where
  | str (s : String)
  | idx (n : JsNum)

/-- `parsePath` from `resolve.js`: split on `.`, split each segment on
`[`/`]` dropping empty parts, turn numeric parts (`Number(part)` not `NaN`
and a non-blank part) into index tokens, and drop empty string tokens. -/
def parsePath (path : String) : List PathTok :=
  let toks := (splitOnPred (· = '.') path.data).flatMap fun seg =>
    ((splitOnPred (fun c => c = '[' || c = ']') seg).filter (· ≠ [])).map fun part =>
      let index := jsStringToNumber ⟨part⟩
      if !index.isNaN && !(jsTrim part).isEmpty then PathTok.idx index
      else PathTok.str ⟨part⟩
  toks.filter fun t =>
    match t with
    | .str s => s ≠ ""
    | .idx _ => true

/-- Element access `xs[n]` for a numeric index on an array: defined only
for a finite non-negative integral index within bounds, else `undefined`. -/
def jsArrGet (xs : List JVal) (n : JsNum) : JVal :=
  match n with
  | .fin q =>
    if q.den = 1 ∧ 0 ≤ q.num ∧ q.num.toNat < xs.length then xs.getD q.num.toNat .undefined
    else .undefined
  | _ => .undefined

/-- The token-walking loop of `getValueAtPath`: a nullish current value
stops resolution; an index token requires an array; a key token reads an
object data property. -/
def walkTokens : List PathTok → JVal → JVal
  | [], cur => cur
  | t :: rest, cur =>
    if cur.isNullish then .undefined
    else
      match t with
      | .idx n =>
        match cur with
        | .jarr xs => walkTokens rest (jsArrGet xs n)
        | _ => .undefined
      | .str k => walkTokens rest (cur.getProp k)

/-- `getValueAtPath` from `resolve.js`: resolve a dotted/bracket path
against a value; `.undefined` plays the role of JavaScript `undefined`
("not found"). -/
def getValueAtPath (obj : JVal) (path : String) : JVal :=
  if path = "" then obj
  else walkTokens (parsePath path) obj

/-- `normalizeValues` from `resolve.js`: arrays pass through, non-null
objects are serialised to a JSON string, `undefined` becomes the empty
list, anything else is wrapped in a singleton. -/
def normalizeValues (value : JVal) : List JVal :=
  match value with
  | .jarr xs => xs
  | .jobj fields => [.jstr (jsonStringify (.jobj fields))]
  | .undefined => []
  | v => [v]

/-- A request `body` value as built by the decoder: a type tag, the declared
content type, the decoded raw text (absent on the form-data path), the
parsed structure and the truncation flag.  `raw : Option String`
distinguishes "a string is present" (the only case in which the code's
`typeof body.raw === 'string'` checks succeed) from anything else. -/
structure Body where
  btype : String := ""
  contentType : String := ""
  raw : Option String := none
  parsed : JVal := .undefined
  truncated : Bool := false

/-! ## Percent decoding (`decodeURIComponent` model) -/

/-- Hexadecimal digit value. -/
def hexVal (c : Char) : Option ℕ :=
  if '0' ≤ c ∧ c ≤ '9' then some (c.toNat - 48)
  else if 'a' ≤ c ∧ c ≤ 'f' then some (c.toNat - 87)
  else if 'A' ≤ c ∧ c ≤ 'F' then some (c.toNat - 55)
  else none

/-- A token of a percent-encoded string: a literal character or one
percent-escaped byte. -/
inductive PDTok where
  | lit (c : Char)
  | byte (b : ℕ)

/-- Tokenize a percent-encoded string; fails (as `decodeURIComponent`
throws) on a `%` not followed by two hexadecimal digits.  Fuel-bounded:
every step consumes at least one character, so `l.length + 1` fuel always
suffices. -/
def pdTokensAux : ℕ → List Char → Option (List PDTok)
  | 0, _ => none
  | _ + 1, [] => some []
  | fuel + 1, c :: rest =>
    if c = '%' then
      match rest with
      | h1 :: h2 :: r =>
        match hexVal h1, hexVal h2 with
        | some a, some b => (pdTokensAux fuel r).map (PDTok.byte (16 * a + b) :: ·)
        | _, _ => none
      | _ => none
    else (pdTokensAux fuel rest).map (PDTok.lit c :: ·)

/-- See `pdTokensAux`. -/
def pdTokens (l : List Char) : Option (List PDTok) := pdTokensAux (l.length + 1) l

/-- Strict UTF-8 decoding of a byte run (fuel-bounded; each step consumes
at least one byte, so `l.length + 1` fuel always suffices); rejects
truncated and overlong sequences, surrogate code points and values beyond
U+10FFFF, as `decodeURIComponent` does. -/
def utf8DecodeStrictAux : ℕ → List ℕ → Option (List Char)
  | 0, _ => none
  | _ + 1, [] => some []
  | fuel + 1, b :: rest =>
    if b < 0x80 then (utf8DecodeStrictAux fuel rest).map (Char.ofNat b :: ·)
    else if b < 0xC0 then none
    else if b < 0xE0 then
      match rest with
      | b2 :: r =>
        if 0x80 ≤ b2 ∧ b2 < 0xC0 then
          let cp := (b - 0xC0) * 64 + (b2 - 0x80)
          if cp < 0x80 then none else (utf8DecodeStrictAux fuel r).map (Char.ofNat cp :: ·)
        else none
      | _ => none
    else if b < 0xF0 then
      match rest with
      | b2 :: b3 :: r =>
        if (0x80 ≤ b2 ∧ b2 < 0xC0) ∧ (0x80 ≤ b3 ∧ b3 < 0xC0) then
          let cp := (b - 0xE0) * 4096 + (b2 - 0x80) * 64 + (b3 - 0x80)
          if cp < 0x800 ∨ (0xD800 ≤ cp ∧ cp < 0xE000) then none
          else (utf8DecodeStrictAux fuel r).map (Char.ofNat cp :: ·)
        else none
      | _ => none
    else if b < 0xF8 then
      match rest with
      | b2 :: b3 :: b4 :: r =>
        if (0x80 ≤ b2 ∧ b2 < 0xC0) ∧ (0x80 ≤ b3 ∧ b3 < 0xC0) ∧ (0x80 ≤ b4 ∧ b4 < 0xC0) then
          let cp := (b - 0xF0) * 262144 + (b2 - 0x80) * 4096 + (b3 - 0x80) * 64 + (b4 - 0x80)
          if cp < 0x10000 ∨ cp > 0x10FFFF then none
          else (utf8DecodeStrictAux fuel r).map (Char.ofNat cp :: ·)
        else none
      | _ => none
    else none

/-- See `utf8DecodeStrictAux`. -/
def utf8DecodeStrict (l : List ℕ) : Option (List Char) :=
  utf8DecodeStrictAux (l.length + 1) l

/-- Split a token list into its leading run of bytes and the remainder. -/
def takeBytes : List PDTok → (List ℕ × List PDTok)
  | PDTok.byte b :: rest =>
    let (bs, r) := takeBytes rest
    (b :: bs, r)
  | l => ([], l)

lemma takeBytes_length_le (l : List PDTok) : (takeBytes l).2.length ≤ l.length := by
  induction l with
  | nil => simp [takeBytes]
  | cons t rest ih =>
    cases t with
    | lit c => simp [takeBytes]
    | byte b =>
      simp only [takeBytes]
      exact le_trans ih (by simp)

/-- Decode a token list: literal characters pass through verbatim and each
maximal run of percent-escaped bytes must decode as strict UTF-8.
Fuel-bounded: every step consumes at least one token, so `l.length + 1`
fuel always suffices. -/
def pdDecodeAux : ℕ → List PDTok → Option (List Char)
  | 0, _ => none
  | _ + 1, [] => some []
  | fuel + 1, .lit c :: rest => (pdDecodeAux fuel rest).map (c :: ·)
  | fuel + 1, .byte b :: rest =>
    let bsr := takeBytes rest
    match utf8DecodeStrict (b :: bsr.1) with
    | some cs => (pdDecodeAux fuel bsr.2).map (cs ++ ·)
    | none => none

/-- See `pdDecodeAux`. -/
def pdDecode (l : List PDTok) : Option (List Char) := pdDecodeAux (l.length + 1) l

/-- Model of `decodeURIComponent`: `none` when the real function throws. -/
def jsDecodeURIComponent (s : String) : Option String :=
  ((pdTokens s.data).bind pdDecode).map List.asString

/-- `safeDecode` from `parse.js`: percent-decode, falling back to the
input when decoding throws. -/
def safeDecode (value : String) : String :=
  (jsDecodeURIComponent value).getD value

/-- `decodePlus` from `parse.js`: replace every `+` with a space. -/
def decodePlus (value : String) : String :=
  ⟨value.data.map fun c => if c = '+' then ' ' else c⟩

/-- One decoded query/form parameter. -/
structure Param where
  rawKey : String
  rawValue : String
  key : String
  value : String

/-- Split a pair at its first `=` (JavaScript `indexOf('=')`); `none`
when the pair has no `=`. -/
def breakOnEq : List Char → (List Char × Option (List Char))
  | [] => ([], none)
  | c :: rest =>
    if c = '=' then ([], some rest)
    else
      let r := breakOnEq rest
      (c :: r.1, r.2)

/-- `parseKeyValuePairs` from `parse.js`: split on `&`, drop empty pairs,
split each pair at the first `=`, keep the raw key/value and decode them
(`+`→space first when requested, then percent-decoding). -/
def parseKeyValuePairs (raw : String) (plusAsSpace : Bool) : List Param :=
  if raw = "" then []
  else
    ((splitOnPred (· = '&') raw.data).filter (· ≠ [])).map fun pair =>
      let kv := breakOnEq pair
      let rawKey : String := ⟨kv.1⟩
      let rawValue : String := match kv.2 with | some v => ⟨v⟩ | none => ""
      let keySource := if plusAsSpace then decodePlus rawKey else rawKey
      let valueSource := if plusAsSpace then decodePlus rawValue else rawValue
      { rawKey := rawKey, rawValue := rawValue,
        key := safeDecode keySource, value := safeDecode valueSource }

/-- A parsed form body: the raw text and its parameter list. -/
structure FormParsed where
  raw : String
  params : List Param

/-- `parseFormData` from `parse.js`: flatten a form-data record (each key
mapping to one or more string values) into parameters; keys are kept
verbatim, values are percent-decoded. -/
def parseFormData (formData : List (String × List String)) : FormParsed :=
  { raw := ""
    params := formData.flatMap fun kv =>
      kv.2.map fun value =>
        { rawKey := kv.1, rawValue := value, key := kv.1, value := safeDecode value } }

/-! ## JSON parsing (`JSON.parse` model) and raw-body decoding -/

/-- Skip JSON whitespace. -/
def jsonWsSkip (l : List Char) : List Char :=
  l.dropWhile fun c => c = ' ' || c = '\t' || c = '\n' || c = '\r'

/-- Four hexadecimal digits to a number. -/
def hex4 (h1 h2 h3 h4 : Char) : Option ℕ := do
  let a ← hexVal h1
  let b ← hexVal h2
  let c ← hexVal h3
  let d ← hexVal h4
  pure (((a * 16 + b) * 16 + c) * 16 + d)

/-- Parse the remainder of a JSON string literal (after the opening
quote), accumulating characters in reverse.  Surrogate pairs written as
two `\u` escapes combine into one character; a lone surrogate becomes
U+FFFD (it has no standalone representation as a scalar value). -/
def pJsonString : List Char → List Char → Option (String × List Char)
  | [], _ => none
  | '"' :: rest, acc => some (⟨acc.reverse⟩, rest)
  | '\\' :: '"' :: r, acc => pJsonString r ('"' :: acc)
  | '\\' :: '\\' :: r, acc => pJsonString r ('\\' :: acc)
  | '\\' :: '/' :: r, acc => pJsonString r ('/' :: acc)
  | '\\' :: 'b' :: r, acc => pJsonString r (Char.ofNat 8 :: acc)
  | '\\' :: 'f' :: r, acc => pJsonString r (Char.ofNat 12 :: acc)
  | '\\' :: 'n' :: r, acc => pJsonString r ('\n' :: acc)
  | '\\' :: 'r' :: r, acc => pJsonString r ('\r' :: acc)
  | '\\' :: 't' :: r, acc => pJsonString r ('\t' :: acc)
  | '\\' :: 'u' :: h1 :: h2 :: h3 :: h4 :: r, acc =>
    (match hex4 h1 h2 h3 h4 with
    | none => none
    | some cp =>
      if 0xD800 ≤ cp ∧ cp < 0xDC00 then
        match r with
        | '\\' :: 'u' :: g1 :: g2 :: g3 :: g4 :: r2 =>
          (match hex4 g1 g2 g3 g4 with
          | none => none
          | some lo =>
            if 0xDC00 ≤ lo ∧ lo < 0xE000 then
              pJsonString r2
                (Char.ofNat (0x10000 + (cp - 0xD800) * 1024 + (lo - 0xDC00)) :: acc)
            else
              pJsonString (('\\' : Char) :: 'u' :: g1 :: g2 :: g3 :: g4 :: r2)
                (Char.ofNat 0xFFFD :: acc))
        | rr => pJsonString rr (Char.ofNat 0xFFFD :: acc)
      else if 0xDC00 ≤ cp ∧ cp < 0xE000 then pJsonString r (Char.ofNat 0xFFFD :: acc)
      else pJsonString r (Char.ofNat cp :: acc))
  | '\\' :: _, _ => none
  | c :: rest, acc => if c.toNat < 32 then none else pJsonString rest (c :: acc)
termination_by l _ => l.length
decreasing_by all_goals simp_wf <;> omega

/-- Parse a JSON number literal (sign, integer part with no leading
zeros, optional fraction, optional exponent); the value is assembled from
the digit strings by `jsDecValue`. -/
def pJsonNumber (l : List Char) : Option (ℚ × List Char) :=
  let sgn := match l with
    | '-' :: t => (true, t)
    | t => (false, t)
  let ipart : Option (List Char × List Char) :=
    match sgn.2 with
    | '0' :: r => some (['0'], r)
    | c :: _ =>
      if c.isDigit then
        let sp := sgn.2.span Char.isDigit
        some (sp.1, sp.2)
      else none
    | [] => none
  match ipart with
  | none => none
  | some (ip, r1) =>
    let fpart : Option (List Char × List Char) :=
      match r1 with
      | '.' :: r2 =>
        let sp := r2.span Char.isDigit
        if sp.1 = [] then none
        else some (sp.1, sp.2)
      | _ => some ([], r1)
    match fpart with
    | none => none
    | some (fp, r3) =>
      let epart : Option (ℤ × List Char) :=
        match r3 with
        | e :: r4 =>
          if e = 'e' ∨ e = 'E' then
            let es := match r4 with
              | '+' :: t => ((1 : ℤ), t)
              | '-' :: t => ((-1 : ℤ), t)
              | t => ((1 : ℤ), t)
            let sp := es.2.span Char.isDigit
            if sp.1 = [] then none
            else some (es.1 * (digitsToNat sp.1 : ℤ), sp.2)
          else some (0, r3)
        | [] => some (0, r3)
      match epart with
      | none => none
      | some (ex, r5) =>
        some (jsDecValue sgn.1 (digitsToNat (ip ++ fp)) (ex - (fp.length : ℤ)), r5)

/-- Insert a member into an object, JavaScript-style: an existing key is
updated in place (keeping its position), a new key is appended. -/
def objInsert (fields : List (String × JVal)) (k : String) (v : JVal) :
    List (String × JVal) :=
  if fields.any fun f => f.1 == k then
    fields.map fun f => if f.1 == k then (k, v) else f
  else fields ++ [(k, v)]

mutual

/-- Parse one JSON value (fuel-bounded recursive descent). -/
def pValue : ℕ → List Char → Option (JVal × List Char)
  | 0, _ => none
  | fuel + 1, l =>
    match jsonWsSkip l with
    | '{' :: r =>
      match jsonWsSkip r with
      | '}' :: r2 => some (.jobj [], r2)
      | r2 => pMembers fuel r2 []
    | '[' :: r =>
      match jsonWsSkip r with
      | ']' :: r2 => some (.jarr [], r2)
      | r2 => pElems fuel r2 []
    | '"' :: r => (pJsonString r []).map fun sr => (.jstr sr.1, sr.2)
    | 't' :: 'r' :: 'u' :: 'e' :: r => some (.jbool true, r)
    | 'f' :: 'a' :: 'l' :: 's' :: 'e' :: r => some (.jbool false, r)
    | 'n' :: 'u' :: 'l' :: 'l' :: r => some (.jnull, r)
    | l2 => (pJsonNumber l2).map fun qr => (.jnum qr.1, qr.2)

/-- Parse the members of a JSON object (after at least one member is
known to follow). -/
def pMembers : ℕ → List Char → List (String × JVal) → Option (JVal × List Char)
  | 0, _, _ => none
  | fuel + 1, l, acc =>
    match jsonWsSkip l with
    | '"' :: r =>
      match pJsonString r [] with
      | none => none
      | some (k, r2) =>
        match jsonWsSkip r2 with
        | ':' :: r3 =>
          match pValue fuel r3 with
          | none => none
          | some (v, r4) =>
            let acc2 := objInsert acc k v
            match jsonWsSkip r4 with
            | ',' :: r5 => pMembers fuel r5 acc2
            | '}' :: r5 => some (.jobj acc2, r5)
            | _ => none
        | _ => none
    | _ => none

/-- Parse the elements of a JSON array (after at least one element is
known to follow). -/
def pElems : ℕ → List Char → List JVal → Option (JVal × List Char)
  | 0, _, _ => none
  | fuel + 1, l, acc =>
    match pValue fuel l with
    | none => none
    | some (v, r) =>
      match jsonWsSkip r with
      | ',' :: r2 => pElems fuel r2 (acc ++ [v])
      | ']' :: r2 => some (.jarr (acc ++ [v]), r2)
      | _ => none

end

/-- `JSON.parse`: parse one value and require only whitespace to follow. -/
def jsonParse (s : String) : Option JVal :=
  match pValue (2 * s.length + 2) s.data with
  | some (v, rest) => if jsonWsSkip rest = [] then some v else none
  | none => none

/-- `tryParseJson` from `parse.js`: empty text and parse failures both
yield `null` (the JavaScript function returns `null` in both cases). -/
def tryParseJson (text : String) : JVal :=
  if text = "" then .jnull
  else (jsonParse text).getD .jnull

/-- Whether `l` starts with `sub`. -/
def listStartsWith : List Char → List Char → Bool
  | _, [] => true
  | [], _ :: _ => false
  | c :: r, d :: s => c = d && listStartsWith r s

/-- Whether `sub` occurs contiguously inside `l`. -/
def listContainsSub (l sub : List Char) : Bool :=
  if listStartsWith l sub then true
  else
    match l with
    | [] => false
    | _ :: r => listContainsSub r sub

/-- Substring test (`String.prototype.includes`). -/
def jsIncludes (s sub : String) : Bool := listContainsSub s.data sub.data

/-- `String.prototype.toLowerCase` (simple per-character lowercasing). -/
def jsToLower (s : String) : String := ⟨s.data.map Char.toLower⟩

/-- `isLikelyFormEncoded` from `parse.js`. -/
def isLikelyFormEncoded (text : String) : Bool :=
  if !text.data.contains '=' then false
  else
    let trimmed := jsTrim text.data
    if trimmed.head? = some '{' ∨ trimmed.head? = some '[' then false
    else
      let pairs := (splitOnPred (· = '&') text.data).filter (· ≠ [])
      if pairs.isEmpty then false
      else pairs.any fun pair => pair.contains '='

/-- `tryParseFormEncoded` from `parse.js`. -/
def tryParseFormEncoded (text : String) : Option FormParsed :=
  if text = "" then none
  else if !isLikelyFormEncoded text then none
  else some { raw := text, params := parseKeyValuePairs text true }

/-- One `webRequest` raw-body entry: an optional byte buffer. -/
def RawEntry := Option (List ℕ)

/-- A `webRequest` request body: either decoded form data or raw byte
entries. -/
structure RequestBody where
  formData : Option (List (String × List String)) := none
  raw : Option (List RawEntry) := none

/-- `mergeRawBytes` from `parse.js`: concatenate the byte buffers in
order, skipping entries without bytes. -/
def mergeRawBytes (rawEntries : List RawEntry) : List ℕ :=
  rawEntries.flatMap fun e => e.getD []

/-- Lossy UTF-8 decoding: invalid sequences decode to U+FFFD
(`TextDecoder('utf-8', {fatal:false})`).  Fuel-bounded: every step
consumes at least one byte, so `l.length + 1` fuel always suffices. -/
def utf8DecodeLossyAux : ℕ → List ℕ → List Char
  | 0, _ => []
  | _ + 1, [] => []
  | fuel + 1, b :: rest =>
    if b < 0x80 then Char.ofNat b :: utf8DecodeLossyAux fuel rest
    else if b < 0xC2 then Char.ofNat 0xFFFD :: utf8DecodeLossyAux fuel rest
    else if b < 0xE0 then
      match rest with
      | b2 :: r =>
        if 0x80 ≤ b2 ∧ b2 < 0xC0 then
          Char.ofNat ((b - 0xC0) * 64 + (b2 - 0x80)) :: utf8DecodeLossyAux fuel r
        else Char.ofNat 0xFFFD :: utf8DecodeLossyAux fuel (b2 :: r)
      | [] => [Char.ofNat 0xFFFD]
    else if b < 0xF0 then
      match rest with
      | b2 :: b3 :: r =>
        let cp := (b - 0xE0) * 4096 + (b2 - 0x80) * 64 + (b3 - 0x80)
        if (0x80 ≤ b2 ∧ b2 < 0xC0) ∧ (0x80 ≤ b3 ∧ b3 < 0xC0) ∧
            ¬(cp < 0x800 ∨ (0xD800 ≤ cp ∧ cp < 0xE000)) then
          Char.ofNat cp :: utf8DecodeLossyAux fuel r
        else Char.ofNat 0xFFFD :: utf8DecodeLossyAux fuel (b2 :: b3 :: r)
      | [b2] => Char.ofNat 0xFFFD :: utf8DecodeLossyAux fuel [b2]
      | [] => [Char.ofNat 0xFFFD]
    else if b < 0xF5 then
      match rest with
      | b2 :: b3 :: b4 :: r =>
        let cp := (b - 0xF0) * 262144 + (b2 - 0x80) * 4096 + (b3 - 0x80) * 64 + (b4 - 0x80)
        if (0x80 ≤ b2 ∧ b2 < 0xC0) ∧ (0x80 ≤ b3 ∧ b3 < 0xC0) ∧ (0x80 ≤ b4 ∧ b4 < 0xC0) ∧
            0x10000 ≤ cp ∧ cp ≤ 0x10FFFF then
          Char.ofNat cp :: utf8DecodeLossyAux fuel r
        else Char.ofNat 0xFFFD :: utf8DecodeLossyAux fuel (b2 :: b3 :: b4 :: r)
      | [b2, b3] => Char.ofNat 0xFFFD :: utf8DecodeLossyAux fuel [b2, b3]
      | [b2] => Char.ofNat 0xFFFD :: utf8DecodeLossyAux fuel [b2]
      | [] => [Char.ofNat 0xFFFD]
    else Char.ofNat 0xFFFD :: utf8DecodeLossyAux fuel rest

/-- See `utf8DecodeLossyAux`. -/
def utf8DecodeLossy (l : List ℕ) : List Char :=
  utf8DecodeLossyAux (l.length + 1) l

/-- `decodeBytes` from `parse.js`: empty input decodes to the empty
string, anything else through lossy UTF-8. -/
def decodeBytes (bytes : List ℕ) : String :=
  if bytes.isEmpty then "" else ⟨utf8DecodeLossy bytes⟩

/-- JavaScript `String.prototype.slice(0, n)` measured in UTF-16 code
units (an astral character split by the bound is dropped, as a lone
surrogate has no scalar representation). -/
def jsSliceUnitsAux : List Char → ℕ → List Char
  | [], _ => []
  | c :: rest, budget =>
    if jsCharLen c ≤ budget then c :: jsSliceUnitsAux rest (budget - jsCharLen c) else []

/-- See `jsSliceUnitsAux`. -/
def jsSliceUnits (s : String) (n : ℕ) : String := ⟨jsSliceUnitsAux s.data n⟩

/-- A parameter record as the JavaScript object it is at runtime. -/
def Param.toJVal (p : Param) : JVal :=
  .jobj [("rawKey", .jstr p.rawKey), ("rawValue", .jstr p.rawValue),
         ("key", .jstr p.key), ("value", .jstr p.value)]

/-- A parsed form body as the JavaScript object it is at runtime
(`{ raw, params }`). -/
def FormParsed.toJVal (f : FormParsed) : JVal :=
  .jobj [("raw", .jstr f.raw), ("params", .jarr (f.params.map Param.toJVal))]

/-- The maximum decoded body size accepted by `parseRawBody`. -/
def MAX_BODY_CHARS : ℕ := 200000

/-- `parseRawBody` from `parse.js` (the revision with the size bound):
form data parses structurally; raw bytes are merged and decoded, then
oversized text short-circuits to a truncated opaque `text` body before
any JSON or form parsing; otherwise the declared content type, a JSON
attempt and a form heuristic decide the body shape. -/
def parseRawBody (requestBody : RequestBody) (contentType : String) : Option Body :=
  match requestBody.formData with
  | some fd =>
    some { btype := "formData", contentType := contentType, raw := none,
           parsed := (parseFormData fd).toJVal, truncated := false }
  | none =>
    match requestBody.raw with
    | some entries =>
      if entries.length ≠ 0 then
        let text := decodeBytes (mergeRawBytes entries)
        if jsStrLen text > MAX_BODY_CHARS then
          some { btype := "text", contentType := contentType,
                 raw := some (jsSliceUnits text MAX_BODY_CHARS),
                 parsed := .jnull, truncated := true }
        else
          let lowerType := jsToLower contentType
          if jsIncludes lowerType "application/json" then
            some { btype := "json", contentType := contentType, raw := some text,
                   parsed := tryParseJson text, truncated := false }
          else if jsIncludes lowerType "application/x-www-form-urlencoded" then
            some { btype := "form", contentType := contentType, raw := some text,
                   parsed := (FormParsed.mk text (parseKeyValuePairs text true)).toJVal,
                   truncated := false }
          else
            let json := tryParseJson text
            if json.truthy then
              some { btype := "json", contentType := contentType, raw := some text,
                     parsed := json, truncated := false }
            else
              match tryParseFormEncoded text with
              | some fp =>
                some { btype := "form", contentType := contentType, raw := some text,
                       parsed := fp.toJVal, truncated := false }
              | none =>
                some { btype := "text", contentType := contentType, raw := some text,
                       parsed := .jnull, truncated := false }
      else none
    | none => none

/-! ## Requests, sources and conditions (`resolve.js`, `uat/assert.js`) -/

/-- A request header. -/
structure Header where
  name : String
  value : String

/-- The slice of a request record the UAT engine reads.  `pageUrl`,
`serviceId` and `sessionId` use the empty string for JavaScript
`null`/missing (both falsy); `navId` uses `0` for a falsy navigation id;
`queryParams` models `(request.query && request.query.params) || []`. -/
structure Request where
  url : String := ""
  pageUrl : String := ""
  navId : ℕ := 0
  sessionId : String := ""
  serviceId : String := ""
  queryParams : List Param := []
  requestHeaders : List Header := []
  body : Option Body := none

/-- A UAT condition: source selector, path, operator, expected value.
Empty strings model missing `source`/`operator` (defaulted by the
evaluator). -/
structure Condition where
  source : String := ""
  path : String := ""
  operator : String := ""
  expected : JVal := .undefined

/-- `Object.fromEntries`: later entries overwrite earlier ones in place. -/
def fromEntries (l : List (String × JVal)) : List (String × JVal) :=
  l.foldl (fun acc kv => objInsert acc kv.1 kv.2) []

/-- `getPayloadObject` from `resolve.js`: the parsed body if it is a
truthy object; otherwise a JSON parse of the raw text if truthy; otherwise
a key/value parse of the raw text if it yields any pairs; else nothing. -/
def getPayloadObject (request : Request) : Option JVal :=
  match request.body with
  | none => none
  | some b =>
    if b.parsed.truthy && b.parsed.isObjectType then some b.parsed
    else
      match b.raw with
      | some raw =>
        let json := tryParseJson raw
        if json.truthy then some json
        else
          let form := parseKeyValuePairs raw true
          if form.length ≠ 0 then
            some (.jobj (fromEntries (form.map fun p => (p.key, .jstr p.value))))
          else none
      | none => none

/-- `undefined` test. -/
def JVal.isUndefinedV : JVal → Bool
  | .undefined => true
  | _ => false

/-- A resolved condition source: whether the source bound a value, and the
value list. -/
structure Resolved where
  used : Bool
  values : List JVal

/-- `resolveConditionValue` from `resolve.js`: resolve a condition's
source (`payload` path lookup, exact `query` key match, case-insensitive
`headers` name match, or the whole `raw` body text). -/
def resolveConditionValue (condition : Condition) (request : Request) : Resolved :=
  let source := if condition.source = "" then "payload" else condition.source
  let path := condition.path
  if source = "payload" then
    match getPayloadObject request with
    | none => ⟨false, []⟩
    | some payload =>
      let value := getValueAtPath payload path
      ⟨!value.isUndefinedV, normalizeValues value⟩
  else if source = "query" then
    let ms := (request.queryParams.filter fun p => p.key == path).map fun p => JVal.jstr p.value
    ⟨ms.length ≠ 0, ms⟩
  else if source = "headers" then
    let ms := (request.requestHeaders.filter fun h =>
      jsToLower h.name == jsToLower path).map fun h => JVal.jstr h.value
    ⟨ms.length ≠ 0, ms⟩
  else if source = "raw" then
    let raw := match request.body with
      | some b => b.raw.getD ""
      | none => ""
    ⟨decide (0 < jsStrLen raw), [JVal.jstr raw]⟩
  else ⟨false, []⟩

/-! ## Condition evaluator (`uat/assert.js`, `part_004`) -/

/-- The `RegExp` collaborator: compiling a pattern yields a test function,
or nothing when the pattern is malformed (`new RegExp` throws). -/
def RegexOracle := String → Option (String → Bool)

/-- `condition.operator || 'exists'`. -/
def effOperator (condition : Condition) : String :=
  if condition.operator = "" then "exists" else condition.operator

/-- The membership set for `in`/`not_in`: an array maps each element to
its string form, anything else is a stringified singleton. -/
def expectedStrings : JVal → List String
  | .jarr xs => xs.map JVal.toJsString
  | e => [e.toJsString]

/-- The destructured `[min, max]` of a `range` expectation (missing
entries are `undefined`). -/
def rangeBounds : JVal → JVal × JVal
  | .jarr xs => (xs.getD 0 .undefined, xs.getD 1 .undefined)
  | _ => (.undefined, .undefined)

/-- `evaluateCondition` from `uat/assert.js`: the 13-operator table over a
resolved value list (callers always pass a list). -/
def evaluateCondition (rx : RegexOracle) (condition : Condition) (values : List JVal) : Bool :=
  let operator := effOperator condition
  let expected := condition.expected
  let list := values
  let hasValue := list.any fun v => !v.isNullish && decide (0 < jsStrLen v.toJsString)
  if operator = "exists" then hasValue
  else if operator = "not_exists" then !hasValue
  else if operator = "equals" then list.any fun v => v.toJsString == expected.toJsString
  else if operator = "contains" then list.any fun v => jsIncludes v.toJsString expected.toJsString
  else if operator = "starts_with" then
    list.any fun v => v.toJsString.startsWith expected.toJsString
  else if operator = "ends_with" then
    list.any fun v => v.toJsString.endsWith expected.toJsString
  else if operator = "regex" then
    match rx expected.toJsString with
    | some test => list.any fun v => test v.toJsString
    | none => false
  else if operator = "in" then
    list.any fun v => (expectedStrings expected).contains v.toJsString
  else if operator = "not_in" then
    list.all fun v => !(expectedStrings expected).contains v.toJsString
  else if operator = "gt" then list.any fun v => JsNum.gt v.toNumber expected.toNumber
  else if operator = "gte" then list.any fun v => JsNum.ge v.toNumber expected.toNumber
  else if operator = "lt" then list.any fun v => JsNum.lt v.toNumber expected.toNumber
  else if operator = "lte" then list.any fun v => JsNum.le v.toNumber expected.toNumber
  else if operator = "range" then
    list.any fun v =>
      JsNum.ge v.toNumber (rangeBounds expected).1.toNumber &&
        JsNum.le v.toNumber (rangeBounds expected).2.toNumber
  else false

/-- `evaluateCount` from `uat/assert.js`: a non-finite expected value
always fails; `at_least` is `>=`, `at_most` is `<=`, anything else
(i.e. `exactly`) is strict equality. -/
def evaluateCount (mode : String) (actual : ℕ) (expected : JVal) : Bool :=
  let expectedNumber := expected.toNumber
  if !expectedNumber.isFinite then false
  else if mode = "at_least" then JsNum.ge (.fin (actual : ℚ)) expectedNumber
  else if mode = "at_most" then JsNum.le (.fin (actual : ℚ)) expectedNumber
  else JsNum.seq (.fin (actual : ℚ)) expectedNumber

/-! ## UAT rule engine (`uat/assert.js`, `part_004`) -/

/-- A UAT assertion.  Empty strings model missing `conditionsLogic`,
`scope` and `count`; `value : Option JVal` distinguishes a missing
(`undefined`) expected count. -/
structure Assertion where
  id : String := ""
  title : String := ""
  description : String := ""
  conditionsLogic : String := ""
  conditions : List Condition := []
  validations : List Condition := []
  scope : String := ""
  count : String := ""
  value : Option JVal := none

/-- The per-condition diagnostic entry the engine emits (the condition's
own fields are spread into it; here they are carried as `cond`). -/
structure ConditionResult where
  cond : Condition
  passed : Bool
  actual : List JVal
  used : Bool
  evaluated : Bool := true

/-- The count diagnostic on a page-scope result. -/
structure CountResult where
  count : String
  expected : JVal
  actual : ℕ

/-- One per-assertion result entry. -/
structure AssertionResult where
  id : String
  title : String
  description : String
  status : String
  applicable : Bool
  conditionsLogic : String
  scope : String
  conditions : List ConditionResult
  validations : List ConditionResult
  count : Option CountResult

/-- The global gate configuration (non-array fields normalise to `[]`). -/
structure GlobalGate where
  includeServices : List String := []
  excludeServices : List String := []
  includeConditions : List Condition := []
  excludeConditions : List Condition := []

/-- `resolveConditionResults` from `uat/assert.js`: evaluate each
condition, then derive applicability — an empty list is always
applicable; otherwise `any`/`all` combination of the per-condition
outcomes, overridden to `true` when `forceApplicable` is set (the
validations path). -/
def resolveConditionResults (rx : RegexOracle) (conditions : List Condition) (logic : String)
    (request : Request) (forceApplicable : Bool) : List ConditionResult × Bool :=
  let conditionResults := conditions.map fun condition =>
    let resolved := resolveConditionValue condition request
    let passed := evaluateCondition rx condition resolved.values
    ConditionResult.mk condition passed resolved.values resolved.used true
  if conditionResults.length = 0 then (conditionResults, true)
  else
    let passes := if logic = "any" then conditionResults.any (·.passed)
      else conditionResults.all (·.passed)
    (conditionResults, if forceApplicable then true else passes)

/-- `evaluateGlobalGate` from `uat/assert.js`: include-services, then
exclude-services, then exclude-conditions, then include-conditions; the
first failing gate short-circuits to "not applicable" (`false`). -/
def evaluateGlobalGate (rx : RegexOracle) (request : Request)
    (globalConfig : Option GlobalGate) (serviceId : Option String) : Bool :=
  match globalConfig with
  | none => true
  | some g =>
    let sidT : Bool := match serviceId with
      | some s => s ≠ ""
      | none => false
    let sid := serviceId.getD ""
    if g.includeServices.length ≠ 0 && (!sidT || !g.includeServices.contains sid) then false
    else if g.excludeServices.length ≠ 0 && sidT && g.excludeServices.contains sid then false
    else if g.excludeConditions.length ≠ 0 &&
        (g.excludeConditions.any fun c =>
          evaluateCondition rx c (resolveConditionValue c request).values) then false
    else if g.includeConditions.length ≠ 0 &&
        !(g.includeConditions.all fun c =>
          evaluateCondition rx c (resolveConditionValue c request).values) then false
    else true

/-- The page-cohort key `countAssertionMatches` groups by: the page URL
(falling back to the request URL) joined with a truthy `navId` by `::`. -/
def pageKeyOf (r : Request) : String :=
  let base := if r.pageUrl ≠ "" then r.pageUrl else r.url
  if r.navId ≠ 0 then base ++ "::" ++ natToStr r.navId else base

/-- `countAssertionMatches` from `resolve.js`: count the sibling records
with the same page key for which the assertion's conditions (under its
`conditionsLogic`) and all of its validations evaluate true. -/
def countAssertionMatches (rx : RegexOracle) (assertion : Assertion)
    (allRequests : List Request) (request : Request) : ℕ :=
  let pageKey := pageKeyOf request
  (allRequests.filter fun item =>
    if pageKeyOf item ≠ pageKey then false
    else
      let condOk :=
        if assertion.conditions.length ≠ 0 then
          let rs := assertion.conditions.map fun c =>
            evaluateCondition rx c (resolveConditionValue c item).values
          if assertion.conditionsLogic = "any" then rs.any id else rs.all id
        else true
      if !condOk then false
      else (assertion.validations.map fun c =>
        evaluateCondition rx c (resolveConditionValue c item).values).all id).length

/-- The result entry built for one assertion by
`evaluateAssertionsForRequest` (the body of its `forEach`). -/
def evalOneAssertion (rx : RegexOracle) (req : Request) (allRequests : List Request)
    (assertion : Assertion) : AssertionResult :=
  let isPageScope := assertion.scope == "page"
  let cr := resolveConditionResults rx assertion.conditions
    (if assertion.conditionsLogic = "" then "all" else assertion.conditionsLogic) req false
  if !cr.2 then
    { id := assertion.id, title := assertion.title, description := assertion.description,
      status := "skipped", applicable := false, conditionsLogic := assertion.conditionsLogic,
      scope := assertion.scope, conditions := cr.1, validations := [], count := none }
  else
    let vr := resolveConditionResults rx assertion.validations "all" req true
    let validationsPassed := vr.1.all (·.passed)
    if isPageScope && assertion.count ≠ "" && assertion.value.isSome then
      let count := countAssertionMatches rx assertion allRequests req
      let countPassed := evaluateCount assertion.count count (assertion.value.getD .undefined)
      { id := assertion.id, title := assertion.title, description := assertion.description,
        status := if countPassed then "passed" else "failed", applicable := true,
        conditionsLogic := assertion.conditionsLogic, scope := assertion.scope,
        conditions := cr.1, validations := vr.1,
        count := some ⟨assertion.count, assertion.value.getD .undefined, count⟩ }
    else
      { id := assertion.id, title := assertion.title, description := assertion.description,
        status := if validationsPassed then "passed" else "failed", applicable := true,
        conditionsLogic := assertion.conditionsLogic, scope := assertion.scope,
        conditions := cr.1, validations := vr.1, count := none }

/-- The options object passed to `evaluateAssertionsForRequest`. -/
structure EvalOptions where
  global : Option GlobalGate := none
  serviceId : Option String := none

/-- `x || null` on an optional service id: the empty string (falsy)
collapses to `none`. -/
def normServiceId : Option String → Option String
  | some s => if s = "" then none else some s
  | none => none

/-- `evaluateAssertionsForRequest` from `uat/assert.js`: nothing for a
missing request; nothing when the global gate reports not applicable;
otherwise one result entry per assertion. -/
def evaluateAssertionsForRequest (rx : RegexOracle) (request : Option Request)
    (assertions : List Assertion) (allRequests : List Request)
    (options : EvalOptions) : List AssertionResult :=
  match request with
  | none => []
  | some req =>
    if !evaluateGlobalGate rx req options.global (normServiceId options.serviceId) then []
    else assertions.map (evalOneAssertion rx req allRequests)

/-! ## `evaluateUatForRequest` (background script, `part_001`) -/

/-- The slice of a session the UAT evaluation reads. -/
structure Session where
  id : String := ""
  uatEnabled : Bool := false
  site : String := ""

/-- A per-site UAT configuration; `assertions` is `none` when the stored
config lacks an assertion array (`Array.isArray` fails). -/
structure UatConfig where
  global : Option GlobalGate := none
  assertions : Option (List Assertion) := none

/-- A record's `uat` field. -/
structure Uat where
  status : String
  results : List AssertionResult

/-- `evaluateUatForRequest` from the background script, as the pure
function from the entry and the ambient state (sessions, per-site
configs, record list) to the entry's new `uat` value: `none` models
`entry.uat = null`. -/
def evaluateUatForRequest (rx : RegexOracle) (entry : Request) (sessions : List Session)
    (uatConfigs : List (String × UatConfig)) (requests : List Request) : Option Uat :=
  match sessions.find? fun s => s.id == entry.sessionId with
  | none => none
  | some session =>
    if !session.uatEnabled then none
    else
      let config := if session.site ≠ "" then uatConfigs.lookup session.site else none
      match config with
      | none => some ⟨"not-applicable", []⟩
      | some cfg =>
        match cfg.assertions with
        | none => some ⟨"not-applicable", []⟩
        | some asserts =>
          let sessionRequests := requests.filter fun r => r.sessionId == entry.sessionId
          let results := evaluateAssertionsForRequest rx (some entry) asserts sessionRequests
            ⟨cfg.global, normServiceId (some entry.serviceId)⟩
          if results.length = 0 then some ⟨"not-applicable", []⟩
          else some ⟨"done", results⟩

/-! ## Request body values (background script, `part_001`) -/

/-- `isBodyEmpty` from the background script: a missing body is empty; a
truthy parsed value is empty iff its `params` field is an empty array or it
is an object/array with no keys; otherwise the body is empty iff its raw
text is the empty string (a non-string `raw` makes it non-empty). -/
def isBodyEmpty : Option Body → Bool
  | none => true
  | some b =>
    if b.parsed.truthy then
      match b.parsed.getProp "params" with
      | .jarr ps => decide (ps.length = 0)
      | _ => if b.parsed.isObjectType then decide (b.parsed.objKeyCount = 0) else false
    else
      match b.raw with
      | some r => decide (jsStrLen r = 0)
      | none => false

/-- The parsed content of a body when it is a truthy object value
(`body.parsed && typeof body.parsed === 'object'`), else `none`. -/
def Body.parsedObject (b : Body) : Option JVal :=
  if b.parsed.truthy && b.parsed.isObjectType then some b.parsed else none

/-- Whether a parsed value carries "event-like" structure: a truthy
top-level `events`, `xdm`, `_experience` or `data` value. -/
def hasEventKeys (p : JVal) : Bool :=
  (p.getProp "events").truthy || (p.getProp "xdm").truthy ||
    (p.getProp "_experience").truthy || (p.getProp "data").truthy

/-- A body is event-like when its truthy parsed object has event-like
structure. -/
def Body.eventLike (b : Body) : Bool :=
  match b.parsedObject with
  | some p => hasEventKeys p
  | none => false

/-- The raw length the replacement rule compares: the UTF-16 length of the
raw string when one is present, else `0`. -/
def Body.rawLen (b : Body) : Nat :=
  match b.raw with
  | some r => jsStrLen r
  | none => 0

/-- `shouldReplaceBody` from the background script: decide whether an
incoming (hook-captured) payload should replace the existing body. -/
def shouldReplaceBody (existing incoming : Option Body) : Bool :=
  match incoming with
  | none => false
  | some inc =>
    if isBodyEmpty existing then true
    else
      match existing with
      | none => true
      | some ex =>
        match inc.parsedObject with
        | none => false
        | some ip =>
          if !hasEventKeys ip then false
          else
            let existingHasEvents :=
              match ex.parsedObject with
              | some ep => hasEventKeys ep
              | none => false
            if !existingHasEvents then true
            else decide (inc.rawLen > ex.rawLen) && hasEventKeys ip

/-- Event-likeness lifted to an optional body (a missing body is not
event-like). -/
def optEventLike : Option Body → Bool
  | none => false
  | some b => b.eventLike

/-- Raw length lifted to an optional body. -/
def optRawLen : Option Body → Nat
  | none => 0
  | some b => b.rawLen

/-- One step of the reconciliation store: attach the candidate when
`shouldReplaceBody` allows it, else keep the current body. -/
def applyCandidate (cur : Option Body) (cand : Body) : Option Body :=
  if shouldReplaceBody cur (some cand) then some cand else cur

/-- A sequence of candidate replacements applied in arrival order. -/
def applyCandidates (cur : Option Body) (cands : List Body) : Option Body :=
  cands.foldl applyCandidate cur

/-! Claim-side (spec-worded) reading of the C1 replacement rule, for
comparison with the code's `shouldReplaceBody`. -/

/-- Claim wording of "the existing body is empty": the body is null, its
parsed content is absent, or its parsed content is an empty object or an
empty `params` list.  (Unlike the code's `isBodyEmpty`, this ignores the
raw text.) -/
def claimC1Empty : Option Body → Bool
  | none => true
  | some b =>
    match b.parsed with
    | .undefined => true
    | .jnull => true
    | .jobj [] => true
    | p =>
      match p.getProp "params" with
      | .jarr [] => true
      | _ => false

/-- Claim wording of "has a parsed object with a top-level `events`,
`xdm`, `_experience`, or `data` key": key presence, regardless of the
key's value. -/
def claimHasEventKey (b : Body) : Bool :=
  match b.parsed with
  | .jobj fields => fields.any fun f => ["events", "xdm", "_experience", "data"].contains f.1
  | _ => false

/-- `claimHasEventKey` lifted to an optional body. -/
def optClaimHasEventKey : Option Body → Bool
  | none => false
  | some b => claimHasEventKey b

/-- The right-hand side of claim C1's if-and-only-if, read literally from
its wording. -/
def claimC1RHS (E : Option Body) (C : Body) : Bool :=
  claimC1Empty E ||
    (claimHasEventKey C && !optClaimHasEventKey E) ||
    (claimHasEventKey C && optClaimHasEventKey E && decide (optRawLen E < C.rawLen))

/-- The code's replacement decision, characterised through `isBodyEmpty`,
event-likeness (truthy event values) and raw UTF-16 lengths. -/
lemma shouldReplaceBody_iff (E : Option Body) (C : Body) :
    shouldReplaceBody E (some C) = true ↔
      (isBodyEmpty E = true ∨
        (C.eventLike = true ∧ optEventLike E = false) ∨
        (C.eventLike = true ∧ optEventLike E = true ∧ optRawLen E < C.rawLen)) := by
  match E with
  | none => simp [shouldReplaceBody, isBodyEmpty]
  | some ex =>
    by_cases hemp : isBodyEmpty (some ex) = true
    · simp [shouldReplaceBody, hemp]
    · rw [Bool.not_eq_true] at hemp
      cases hC : C.parsedObject with
      | none =>
        have hCev : C.eventLike = false := by simp [Body.eventLike, hC]
        simp [shouldReplaceBody, hemp, hC, hCev]
      | some ip =>
        have hCev : C.eventLike = hasEventKeys ip := by simp [Body.eventLike, hC]
        cases hip : hasEventKeys ip with
        | false => simp [shouldReplaceBody, hemp, hC, hip, hCev]
        | true =>
          cases hEx : ex.parsedObject with
          | none =>
            have hEev : optEventLike (some ex) = false := by
              simp [optEventLike, Body.eventLike, hEx]
            simp [shouldReplaceBody, hemp, hC, hip, hCev, hEx, hEev, optRawLen]
          | some ep =>
            have hEev : optEventLike (some ex) = hasEventKeys ep := by
              simp [optEventLike, Body.eventLike, hEx]
            cases hep : hasEventKeys ep with
            | false =>
              simp [shouldReplaceBody, hemp, hC, hip, hCev, hEx, hEev, hep]
            | true =>
              simp [shouldReplaceBody, hemp, hC, hip, hCev, hEx, hEev, hep, optRawLen]

/-- A non-empty event-like body is kept when the candidate's raw text is
not strictly longer. -/
lemma applyCandidate_keeps_nonempty_eventLike (E c : Body)
    (hemp : isBodyEmpty (some E) = false) (hev : E.eventLike = true)
    (hlen : c.rawLen ≤ E.rawLen) : applyCandidate (some E) c = some E := by
  have hrep : shouldReplaceBody (some E) (some c) = false := by
    rw [← Bool.not_eq_true, shouldReplaceBody_iff]
    push_neg
    refine ⟨by simp [hemp], ?_, ?_⟩
    · intro _
      simp [optEventLike, hev]
    · intro _ _
      simp [optRawLen]
      omega
  simp [applyCandidate, hrep]

/-- C1 counterexample: for an existing body whose parsed content is absent
but whose raw text is non-empty (e.g. an unparsed `text` body), the claim's
literal "empty" gloss declares it empty, hence always replaceable, while
`shouldReplaceBody` refuses a non-event-like candidate. -/
theorem c1_counterexample :
    ¬ (shouldReplaceBody (some { raw := some "hello", parsed := .undefined })
          (some { raw := some "x", parsed := .undefined }) = true ↔
        claimC1RHS (some { raw := some "hello", parsed := .undefined })
          { raw := some "x", parsed := .undefined } = true) := by
  decide

/-- C1 (amended): `shouldReplaceBody` returns true iff the existing body is
empty per `isBodyEmpty` (null; or truthy parsed content that is an empty
object or has an empty `params` array; or no truthy parsed content and an
empty raw string), or the candidate is event-like (truthy top-level
`events`/`xdm`/`_experience`/`data` value in its parsed object) while the
existing body is not, or both are event-like and the candidate's raw text
is strictly longer.  Consequently a non-empty (per `isBodyEmpty`)
event-like body is never replaced, over any sequence of candidates, by
candidates whose raw text is equal in length or smaller. -/
theorem c1_shouldReplaceBody_spec :
    (∀ (E : Option Body) (C : Body),
      shouldReplaceBody E (some C) = true ↔
        (isBodyEmpty E = true ∨
          (C.eventLike = true ∧ optEventLike E = false) ∨
          (C.eventLike = true ∧ optEventLike E = true ∧ optRawLen E < C.rawLen))) ∧
    (∀ (E : Body) (cands : List Body),
      isBodyEmpty (some E) = false → E.eventLike = true →
      (∀ c ∈ cands, c.rawLen ≤ E.rawLen) →
      applyCandidates (some E) cands = some E) := by
  refine ⟨shouldReplaceBody_iff, ?_⟩
  intro E cands hemp hev hlen
  induction cands with
  | nil => rfl
  | cons c rest ih =>
    have hc : applyCandidate (some E) c = some E :=
      applyCandidate_keeps_nonempty_eventLike E c hemp hev (hlen c (by simp))
    have : applyCandidates (some E) (c :: rest) = applyCandidates (some E) rest := by
      simp [applyCandidates, hc]
    rw [this]
    exact ih fun x hx => hlen x (by simp [hx])

/-- C7: the path resolver returns the whole value for the empty path;
`a.b[1].c` on `{a: {b: [{c: 1}, {c: 2}]}}` resolves to `2`; an integer
index token applied to a non-array value resolves to `undefined`; and the
out-of-range `a.b[5].c` resolves to `undefined`. -/
theorem c7_getValueAtPath_spec :
    (∀ v : JVal, getValueAtPath v "" = v) ∧
    getValueAtPath
      (.jobj [("a", .jobj [("b", .jarr [.jobj [("c", .jnum 1)], .jobj [("c", .jnum 2)]])])])
      "a.b[1].c" = .jnum 2 ∧
    (∀ (n : JsNum) (rest : List PathTok) (v : JVal),
      (∀ xs, v ≠ .jarr xs) → walkTokens (.idx n :: rest) v = .undefined) ∧
    getValueAtPath
      (.jobj [("a", .jobj [("b", .jarr [.jobj [("c", .jnum 1)], .jobj [("c", .jnum 2)]])])])
      "a.b[5].c" = .undefined := by
  refine ⟨fun v => rfl, by rfl, ?_, by rfl⟩
  intro n rest v hv
  cases v <;> simp [walkTokens, JVal.isNullish]
  · exact absurd rfl (hv _)

/-- C7 witness: the two hypothesis-bearing parts applied at concrete
inputs — a numeric index into a plain object fails, …`[1]`… succeeds. -/
theorem c7_witness :
    walkTokens [.idx (.fin 1)] (.jobj [("1", .jstr "x")]) = .undefined ∧
    getValueAtPath (.jobj [("a", .jstr "v")]) "" = .jobj [("a", .jstr "v")] := by
  constructor
  · exact c7_getValueAtPath_spec.2.2.1 (.fin 1) [] (.jobj [("1", .jstr "x")])
      (fun xs h => by cases h)
  · exact c7_getValueAtPath_spec.1 _

/-- C1 witness: a concrete non-empty event-like body survives a shorter
candidate and is replaced by a longer event-like one. -/
theorem c1_witness :
    applyCandidates (some { raw := some "12345", parsed := .jobj [("events", .jnum 1)] })
        [{ raw := some "123", parsed := .jobj [("events", .jnum 2)] }] =
      some { raw := some "12345", parsed := .jobj [("events", .jnum 1)] } ∧
    shouldReplaceBody (some { raw := some "12345", parsed := .jobj [("events", .jnum 1)] })
        (some { raw := some "1234567", parsed := .jobj [("xdm", .jstr "a")] }) = true := by
  constructor
  · exact c1_shouldReplaceBody_spec.2 _ _ (by decide) (by decide) (by decide)
  · exact (c1_shouldReplaceBody_spec.1 _ _).mpr (Or.inr (Or.inr (by decide)))

/-- A regex collaborator under which every pattern is malformed; used to
instantiate theorems at concrete inputs that do not involve `regex`. -/
def regexNever : RegexOracle := fun _ => none

/-- C2: the 13-operator table of `evaluateCondition` — existential
quantification over the value list for `exists`, `equals`, `contains`,
`starts_with`, `ends_with`, `regex`, `in`, `gt`, `gte`, `lt`, `lte` and
`range`; universal absence for `not_in`; no truthy-length value for
`not_exists`; a malformed regex pattern and an unknown operator evaluate
to false; a `NaN` expected value makes every numeric comparison false. -/
theorem c2_evaluateCondition_table (rx : RegexOracle) (c : Condition) (vs : List JVal) :
    (effOperator c = "exists" →
      (evaluateCondition rx c vs = true ↔
        ∃ v ∈ vs, v.isNullish = false ∧ 0 < jsStrLen v.toJsString)) ∧
    (effOperator c = "not_exists" →
      (evaluateCondition rx c vs = true ↔
        ∀ v ∈ vs, v.isNullish = true ∨ jsStrLen v.toJsString = 0)) ∧
    (effOperator c = "equals" →
      (evaluateCondition rx c vs = true ↔ ∃ v ∈ vs, v.toJsString = c.expected.toJsString)) ∧
    (effOperator c = "contains" →
      (evaluateCondition rx c vs = true ↔
        ∃ v ∈ vs, jsIncludes v.toJsString c.expected.toJsString = true)) ∧
    (effOperator c = "starts_with" →
      (evaluateCondition rx c vs = true ↔
        ∃ v ∈ vs, v.toJsString.startsWith c.expected.toJsString = true)) ∧
    (effOperator c = "ends_with" →
      (evaluateCondition rx c vs = true ↔
        ∃ v ∈ vs, v.toJsString.endsWith c.expected.toJsString = true)) ∧
    (effOperator c = "regex" →
      (rx c.expected.toJsString = none → evaluateCondition rx c vs = false) ∧
      (∀ t, rx c.expected.toJsString = some t →
        (evaluateCondition rx c vs = true ↔ ∃ v ∈ vs, t v.toJsString = true))) ∧
    (effOperator c = "in" →
      (evaluateCondition rx c vs = true ↔
        ∃ v ∈ vs, v.toJsString ∈ expectedStrings c.expected)) ∧
    (effOperator c = "not_in" →
      (evaluateCondition rx c vs = true ↔
        ∀ v ∈ vs, v.toJsString ∉ expectedStrings c.expected)) ∧
    (effOperator c = "gt" →
      (evaluateCondition rx c vs = true ↔
        ∃ v ∈ vs, JsNum.gt v.toNumber c.expected.toNumber = true)) ∧
    (effOperator c = "gte" →
      (evaluateCondition rx c vs = true ↔
        ∃ v ∈ vs, JsNum.ge v.toNumber c.expected.toNumber = true)) ∧
    (effOperator c = "lt" →
      (evaluateCondition rx c vs = true ↔
        ∃ v ∈ vs, JsNum.lt v.toNumber c.expected.toNumber = true)) ∧
    (effOperator c = "lte" →
      (evaluateCondition rx c vs = true ↔
        ∃ v ∈ vs, JsNum.le v.toNumber c.expected.toNumber = true)) ∧
    (effOperator c = "range" →
      (evaluateCondition rx c vs = true ↔
        ∃ v ∈ vs, JsNum.ge v.toNumber (rangeBounds c.expected).1.toNumber = true ∧
          JsNum.le v.toNumber (rangeBounds c.expected).2.toNumber = true)) ∧
    (effOperator c ∉ (["exists", "not_exists", "equals", "contains", "starts_with",
        "ends_with", "regex", "in", "not_in", "gt", "gte", "lt", "lte",
        "range"] : List String) →
      evaluateCondition rx c vs = false) ∧
    (c.expected.toNumber.isNaN = true →
      (effOperator c = "gt" ∨ effOperator c = "gte" ∨
        effOperator c = "lt" ∨ effOperator c = "lte") →
      evaluateCondition rx c vs = false) := by
  refine ⟨?_, ?_, ?_, ?_, ?_, ?_, ?_, ?_, ?_, ?_, ?_, ?_, ?_, ?_, ?_, ?_⟩
  · intro h
    simp [evaluateCondition, h, List.any_eq_true]
  · intro h
    have hrw : evaluateCondition rx c vs =
        !(vs.any fun v => !v.isNullish && decide (0 < jsStrLen v.toJsString)) := by
      simp [evaluateCondition, h]
    rw [hrw, Bool.not_eq_true', List.any_eq_false]
    constructor
    · intro hall v hv
      have hx := hall v hv
      by_cases hn : v.isNullish = true
      · exact Or.inl hn
      · right
        rw [Bool.not_eq_true] at hn
        simp [hn] at hx
        omega
    · intro hall v hv
      rcases hall v hv with h1 | h1
      · simp [h1]
      · simp [h1]
  · intro h
    simp [evaluateCondition, h, List.any_eq_true]
  · intro h
    simp [evaluateCondition, h, List.any_eq_true]
  · intro h
    simp [evaluateCondition, h, List.any_eq_true]
  · intro h
    simp [evaluateCondition, h, List.any_eq_true]
  · intro h
    constructor
    · intro hr
      simp [evaluateCondition, h, hr]
    · intro t hr
      simp [evaluateCondition, h, hr, List.any_eq_true]
  · intro h
    simp [evaluateCondition, h, List.any_eq_true]
  · intro h
    simp [evaluateCondition, h, List.all_eq_true]
  · intro h
    simp [evaluateCondition, h, List.any_eq_true]
  · intro h
    simp [evaluateCondition, h, List.any_eq_true]
  · intro h
    simp [evaluateCondition, h, List.any_eq_true]
  · intro h
    simp [evaluateCondition, h, List.any_eq_true]
  · intro h
    simp [evaluateCondition, h, List.any_eq_true]
  · intro h
    simp only [List.mem_cons, List.mem_singleton, not_or] at h
    obtain ⟨h1, h2, h3, h4, h5, h6, h7, h8, h9, h10, h11, h12, h13, h14⟩ := h
    simp [evaluateCondition, h1, h2, h3, h4, h5, h6, h7, h8, h9, h10, h11, h12, h13, h14]
  · intro hnan hop
    have hgt : ∀ x : JsNum, JsNum.gt x .nan = false := fun x => by
      cases x <;> rfl
    have hge : ∀ x : JsNum, JsNum.ge x .nan = false := fun x => by
      cases x <;> rfl
    have hlt : ∀ x : JsNum, JsNum.lt x .nan = false := fun x => by
      cases x <;> rfl
    have hle : ∀ x : JsNum, JsNum.le x .nan = false := fun x => by
      cases x <;> rfl
    have hev : c.expected.toNumber = .nan := by
      cases hn : c.expected.toNumber <;> simp [JsNum.isNaN, hn] at hnan ⊢
    rcases hop with h | h | h | h <;>
      simp [evaluateCondition, h, hev, hgt, hge, hlt, hle]

/-- C2 witness: the table applied at concrete inputs — `gte 5` passes on
`[5]`, and `not_in ["x"]` fails on `["x"]`. -/
theorem c2_witness :
    evaluateCondition regexNever { operator := "gte", expected := .jnum 5 } [.jnum 5] = true ∧
    evaluateCondition regexNever
      { operator := "not_in", expected := .jarr [.jstr "x"] } [.jstr "x"] = false := by
  constructor
  · obtain ⟨_, _, _, _, _, _, _, _, _, _, hgte, _⟩ :=
      c2_evaluateCondition_table regexNever
        { operator := "gte", expected := .jnum 5 } [.jnum 5]
    exact (hgte rfl).mpr ⟨.jnum 5, by simp, by decide⟩
  · obtain ⟨_, _, _, _, _, _, _, _, hni, _⟩ :=
      c2_evaluateCondition_table regexNever
        { operator := "not_in", expected := .jarr [.jstr "x"] } [.jstr "x"]
    have := (hni rfl)
    rw [← Bool.not_eq_true, this]
    intro hall
    exact hall (.jstr "x") (by simp) (by decide)

/-! Spec-worded stage predicates for the global gate. -/

/-- Spec wording: "if `includeServices` non-empty and record's service id
not in it → not applicable"; the stage passes when the list is empty or a
truthy service id is listed. -/
def specIncludeServicesPass (g : GlobalGate) (serviceId : Option String) : Bool :=
  g.includeServices.isEmpty ||
    (match serviceId with
     | some s => decide (s ≠ "") && g.includeServices.contains s
     | none => false)

/-- Spec wording: "if `excludeServices` non-empty and service id is in it
→ not applicable" (membership on an empty list never holds). -/
def specExcludeServicesPass (g : GlobalGate) (serviceId : Option String) : Bool :=
  !(match serviceId with
    | some s => decide (s ≠ "") && g.excludeServices.contains s
    | none => false)

/-- Spec wording: "if any `excludeConditions` entry evaluates true → not
applicable". -/
def specExcludeConditionsPass (rx : RegexOracle) (req : Request) (g : GlobalGate) : Bool :=
  !(g.excludeConditions.any fun c => evaluateCondition rx c (resolveConditionValue c req).values)

/-- Spec wording: "if `includeConditions` non-empty and not all of them
evaluate true → not applicable" (all of an empty list is true). -/
def specIncludeConditionsPass (rx : RegexOracle) (req : Request) (g : GlobalGate) : Bool :=
  g.includeConditions.all fun c => evaluateCondition rx c (resolveConditionValue c req).values

lemma length_ne_zero_and_any {α : Type} (l : List α) (p : α → Bool) :
    (decide (l.length ≠ 0) && l.any p) = l.any p := by
  cases l <;> simp

lemma length_ne_zero_and_not_all {α : Type} (l : List α) (p : α → Bool) :
    (decide (l.length ≠ 0) && !(l.all p)) = !(l.all p) := by
  cases l <;> simp

/-- The nested-if gate equals the conjunction of its four stages. -/
lemma evaluateGlobalGate_eq_stages (rx : RegexOracle) (req : Request) (g : GlobalGate)
    (sid : Option String) :
    evaluateGlobalGate rx req (some g) sid =
      (specIncludeServicesPass g sid && specExcludeServicesPass g sid &&
        specExcludeConditionsPass rx req g && specIncludeConditionsPass rx req g) := by
  unfold evaluateGlobalGate specIncludeServicesPass specExcludeServicesPass
    specExcludeConditionsPass specIncludeConditionsPass
  simp only [length_ne_zero_and_any, length_ne_zero_and_not_all]
  cases sid with
  | none =>
    cases hIn : g.includeServices <;>
    cases hE : g.excludeConditions.any fun c =>
        evaluateCondition rx c (resolveConditionValue c req).values <;>
    cases hI : g.includeConditions.all fun c =>
        evaluateCondition rx c (resolveConditionValue c req).values <;>
      simp [hE, hI]
  | some s =>
    by_cases hs : s = "" <;>
    cases hIn : g.includeServices <;>
    by_cases hC : s ∈ g.excludeServices <;>
    cases hE : g.excludeConditions.any fun c =>
        evaluateCondition rx c (resolveConditionValue c req).values <;>
    cases hI : g.includeConditions.all fun c =>
        evaluateCondition rx c (resolveConditionValue c req).values <;>
      simp [hs, hC, hE, hI] <;>
      (try exact List.ne_nil_of_mem hC) <;>
      (try exact fun _ => List.ne_nil_of_mem hC)

/-- C3: the global gate is the ordered conjunction of include-services,
exclude-services, exclude-conditions and include-conditions; a failing
gate yields the empty result list; in particular a record whose (truthy)
service id is in `excludeServices` yields zero result entries no matter
how many assertions are configured. -/
theorem c3_globalGate_spec (rx : RegexOracle) :
    (∀ (req : Request) (g : GlobalGate) (sid : Option String),
      evaluateGlobalGate rx req (some g) sid =
        (specIncludeServicesPass g sid && specExcludeServicesPass g sid &&
          specExcludeConditionsPass rx req g && specIncludeConditionsPass rx req g)) ∧
    (∀ (req : Request) (assertions : List Assertion) (allReqs : List Request)
        (opts : EvalOptions),
      evaluateGlobalGate rx req opts.global (normServiceId opts.serviceId) = false →
      evaluateAssertionsForRequest rx (some req) assertions allReqs opts = []) ∧
    (∀ (req : Request) (assertions : List Assertion) (allReqs : List Request)
        (g : GlobalGate) (s : String),
      s ≠ "" → s ∈ g.excludeServices →
      evaluateAssertionsForRequest rx (some req) assertions allReqs
        { global := some g, serviceId := some s } = []) := by
  refine ⟨evaluateGlobalGate_eq_stages rx, ?_, ?_⟩
  · intro req assertions allReqs opts hgate
    simp [evaluateAssertionsForRequest, hgate]
  · intro req assertions allReqs g s hs hmem
    have hnorm : normServiceId (some s) = some s := by simp [normServiceId, hs]
    have hgate : evaluateGlobalGate rx req (some g) (some s) = false := by
      rw [evaluateGlobalGate_eq_stages]
      have : specExcludeServicesPass g (some s) = false := by
        simp [specExcludeServicesPass, hs, hmem]
      simp [this]
    simp [evaluateAssertionsForRequest, hnorm, hgate]

/-- C3 witness: a concrete excluded record with two configured assertions
produces zero results. -/
theorem c3_witness :
    evaluateAssertionsForRequest regexNever (some { serviceId := "ga" })
      [{ id := "a1" }, { id := "a2" }] []
      { global := some { excludeServices := ["ga"] }, serviceId := some "ga" } = [] := by
  exact (c3_globalGate_spec regexNever).2.2 _ _ _ _ "ga" (by decide) (by simp)

/-- C10: with a null resolved service id, the `excludeServices` list is
irrelevant to the gate (service exclusion applies only to records with a
service identifier), while a non-empty `includeServices` list always
gates the record out; and with a service-only gate, a null-service record
still gets one result entry per assertion. -/
theorem c10_null_serviceId_gate (rx : RegexOracle) :
    (∀ (req : Request) (g : GlobalGate),
      evaluateGlobalGate rx req (some g) none =
        evaluateGlobalGate rx req (some { g with excludeServices := [] }) none) ∧
    (∀ (req : Request) (assertions : List Assertion) (allReqs : List Request)
        (g : GlobalGate),
      g.includeServices ≠ [] →
      evaluateAssertionsForRequest rx (some req) assertions allReqs
        { global := some g, serviceId := none } = []) ∧
    (∀ (req : Request) (assertions : List Assertion) (allReqs : List Request)
        (excl : List String),
      (evaluateAssertionsForRequest rx (some req) assertions allReqs
        { global := some { excludeServices := excl }, serviceId := none }).length =
        assertions.length) := by
  refine ⟨?_, ?_, ?_⟩
  · intro req g
    rw [evaluateGlobalGate_eq_stages, evaluateGlobalGate_eq_stages]
    simp [specIncludeServicesPass, specExcludeServicesPass, specExcludeConditionsPass,
      specIncludeConditionsPass]
  · intro req assertions allReqs g hne
    have hgate : evaluateGlobalGate rx req (some g) none = false := by
      rw [evaluateGlobalGate_eq_stages]
      have : specIncludeServicesPass g none = false := by
        simp [specIncludeServicesPass, List.isEmpty_iff, hne]
      simp [this]
    simp [evaluateAssertionsForRequest, normServiceId, hgate]
  · intro req assertions allReqs excl
    have hgate : evaluateGlobalGate rx req
        (some { excludeServices := excl }) none = true := by
      rw [evaluateGlobalGate_eq_stages]
      simp [specIncludeServicesPass, specExcludeServicesPass, specExcludeConditionsPass,
        specIncludeConditionsPass]
    simp [evaluateAssertionsForRequest, normServiceId, hgate]

/-- C10 witness: a non-empty include list gates a null-service record
out; a non-empty exclude list does not stop its assertions from being
evaluated. -/
theorem c10_witness :
    evaluateAssertionsForRequest regexNever (some {}) [{ id := "a1" }] []
      { global := some { includeServices := ["x"] }, serviceId := none } = [] ∧
    (evaluateAssertionsForRequest regexNever (some {}) [{ id := "a1" }] []
      { global := some { excludeServices := ["x"] }, serviceId := none }).length = 1 := by
  constructor
  · exact (c10_null_serviceId_gate regexNever).2.1 _ _ _ _ (by decide)
  · exact (c10_null_serviceId_gate regexNever).2.2 _ [{ id := "a1" }] _ ["x"]

/-- When the gate passes, the engine emits exactly one result entry per
assertion, each built by `evalOneAssertion`. -/
lemma evaluateAssertions_eq_map (rx : RegexOracle) (req : Request)
    (assertions : List Assertion) (allReqs : List Request) (opts : EvalOptions)
    (hgate : evaluateGlobalGate rx req opts.global (normServiceId opts.serviceId) = true) :
    evaluateAssertionsForRequest rx (some req) assertions allReqs opts =
      assertions.map (evalOneAssertion rx req allReqs) := by
  simp [evaluateAssertionsForRequest, hgate]

lemma all_passed_map_aux (rx : RegexOracle) (req : Request) (l : List Condition) :
    ((l.map fun condition =>
      ConditionResult.mk condition
        (evaluateCondition rx condition (resolveConditionValue condition req).values)
        (resolveConditionValue condition req).values
        (resolveConditionValue condition req).used true).all fun x => x.passed) =
      l.all fun c => evaluateCondition rx c (resolveConditionValue c req).values := by
  induction l with
  | nil => rfl
  | cons d ds ih => simp only [List.map_cons, List.all_cons, ih]

/-- The entry list of `resolveConditionResults` is the condition list
mapped through evaluation. -/
lemma resolveConditionResults_fst (rx : RegexOracle) (conds : List Condition)
    (logic : String) (req : Request) (force : Bool) :
    (resolveConditionResults rx conds logic req force).1 =
      conds.map fun condition =>
        ConditionResult.mk condition
          (evaluateCondition rx condition (resolveConditionValue condition req).values)
          (resolveConditionValue condition req).values
          (resolveConditionValue condition req).used true := by
  cases conds with
  | nil => rfl
  | cons c cs => simp [resolveConditionResults]

/-- The combined pass bit over a resolved condition list is the `all` of
the underlying condition evaluations. -/
lemma resolveConditionResults_all_passed (rx : RegexOracle) (conds : List Condition)
    (logic : String) (req : Request) (force : Bool) :
    (resolveConditionResults rx conds logic req force).1.all (·.passed) =
      conds.all fun c => evaluateCondition rx c (resolveConditionValue c req).values := by
  rw [resolveConditionResults_fst, all_passed_map_aux]

/-- An applicable request-scope assertion (no page-count override)
evaluates to the record whose status is decided by the `all` of its
validations. -/
lemma evalOneAssertion_request_scope (rx : RegexOracle) (req : Request)
    (allReqs : List Request) (a : Assertion)
    (happ : (resolveConditionResults rx a.conditions
      (if a.conditionsLogic = "" then "all" else a.conditionsLogic) req false).2 = true)
    (hnotcount : ¬(a.scope = "page" ∧ a.count ≠ "" ∧ a.value.isSome = true)) :
    evalOneAssertion rx req allReqs a =
      { id := a.id, title := a.title, description := a.description,
        status := if a.validations.all
            (fun c => evaluateCondition rx c (resolveConditionValue c req).values)
          then "passed" else "failed",
        applicable := true, conditionsLogic := a.conditionsLogic, scope := a.scope,
        conditions := (resolveConditionResults rx a.conditions
          (if a.conditionsLogic = "" then "all" else a.conditionsLogic) req false).1,
        validations := (resolveConditionResults rx a.validations "all" req true).1,
        count := none } := by
  have hguardP : ¬((a.scope = "page" ∧ ¬a.count = "") ∧ a.value.isSome = true) := fun hx =>
    hnotcount ⟨hx.1.1, hx.1.2, hx.2⟩
  simp [evalOneAssertion, happ, hguardP, resolveConditionResults_all_passed]

/-- An applicable page-scope assertion with a count mode and an expected
value evaluates to the record whose status is the count comparison. -/
lemma evalOneAssertion_page_count (rx : RegexOracle) (req : Request)
    (allReqs : List Request) (a : Assertion) (v : JVal)
    (happ : (resolveConditionResults rx a.conditions
      (if a.conditionsLogic = "" then "all" else a.conditionsLogic) req false).2 = true)
    (hscope : a.scope = "page") (hcount : a.count ≠ "") (hvalue : a.value = some v) :
    evalOneAssertion rx req allReqs a =
      { id := a.id, title := a.title, description := a.description,
        status := if evaluateCount a.count (countAssertionMatches rx a allReqs req) v
          then "passed" else "failed",
        applicable := true, conditionsLogic := a.conditionsLogic, scope := a.scope,
        conditions := (resolveConditionResults rx a.conditions
          (if a.conditionsLogic = "" then "all" else a.conditionsLogic) req false).1,
        validations := (resolveConditionResults rx a.validations "all" req true).1,
        count := some ⟨a.count, v, countAssertionMatches rx a allReqs req⟩ } := by
  simp [evalOneAssertion, happ, hscope, hcount, hvalue]

/-- C6: validations are resolved with forced `all` logic regardless of the
assertion's `conditionsLogic`, and (request scope) the status is `passed`
iff every validation condition evaluates true. -/
theorem c6_validations_forced_all (rx : RegexOracle) (req : Request)
    (allReqs : List Request) (a : Assertion)
    (happ : (resolveConditionResults rx a.conditions
      (if a.conditionsLogic = "" then "all" else a.conditionsLogic) req false).2 = true)
    (hnotcount : ¬(a.scope = "page" ∧ a.count ≠ "" ∧ a.value.isSome = true)) :
    ((evalOneAssertion rx req allReqs a).validations =
      (resolveConditionResults rx a.validations "all" req true).1) ∧
    ((evalOneAssertion rx req allReqs a).status = "passed" ↔
      ∀ c ∈ a.validations,
        evaluateCondition rx c (resolveConditionValue c req).values = true) ∧
    (∀ opts : EvalOptions,
      evaluateGlobalGate rx req opts.global (normServiceId opts.serviceId) = true →
      evaluateAssertionsForRequest rx (some req) [a] allReqs opts =
        [evalOneAssertion rx req allReqs a]) := by
  have hrec := evalOneAssertion_request_scope rx req allReqs a happ hnotcount
  refine ⟨by rw [hrec], ?_, fun opts hgate => by
    simpa using evaluateAssertions_eq_map rx req [a] allReqs opts hgate⟩
  rw [hrec]
  cases hb : a.validations.all
      (fun c => evaluateCondition rx c (resolveConditionValue c req).values) with
  | false =>
    simp only [hb, Bool.false_eq_true, if_false]
    constructor
    · intro h
      exact absurd h (by decide)
    · intro hall
      exact absurd (List.all_eq_true.mpr hall) (by simp [hb])
  | true =>
    simp only [hb, if_true]
    exact ⟨fun _ => fun c hc => List.all_eq_true.mp hb c hc, fun _ => trivial⟩

/-- C6 witness: an assertion with `conditionsLogic: any` and one passing
plus one failing validation is not `passed` — the validations do not
inherit the `any` logic. -/
theorem c6_witness :
    (evalOneAssertion regexNever
      { body := some { parsed := .jobj [("x", .jstr "1")] } } []
      { id := "w", conditionsLogic := "any",
        validations := [{ path := "x", operator := "equals", expected := .jstr "1" },
                        { path := "x", operator := "equals", expected := .jstr "2" }] }).status ≠
      "passed" := by
  have h := c6_validations_forced_all regexNever
    { body := some { parsed := .jobj [("x", .jstr "1")] } } []
    { id := "w", conditionsLogic := "any",
      validations := [{ path := "x", operator := "equals", expected := .jstr "1" },
                      { path := "x", operator := "equals", expected := .jstr "2" }] }
    (by decide) (by decide)
  intro hp
  have hall := h.2.1.mp hp
  have h2 := hall { path := "x", operator := "equals", expected := .jstr "2" } (by simp)
  exact absurd h2 (by decide)

/-! Cohort-key injectivity: `page :: "::" :: digits` determines the page
and the digits. -/

lemma colon_mem {x y : List Char} {c' : List Char} (hne : c' ≠ [])
    (h : ':' :: ':' :: x = c' ++ ':' :: ':' :: y) : ':' ∈ x := by
  cases c' with
  | nil => exact absurd rfl hne
  | cons a t =>
    cases t with
    | nil =>
      simp only [List.cons_append, List.nil_append, List.cons.injEq] at h
      rw [h.2.2]
      exact List.mem_cons_self _ _
    | cons b t2 =>
      simp only [List.cons_append, List.cons.injEq] at h
      rw [h.2.2]
      exact List.mem_append_right _ (List.mem_cons_self _ _)

lemma sep_digits_inj (p1 p2 d1 d2 : List Char)
    (hd1 : ∀ c ∈ d1, c.isDigit) (hd2 : ∀ c ∈ d2, c.isDigit)
    (h : p1 ++ ':' :: ':' :: d1 = p2 ++ ':' :: ':' :: d2) :
    p1 = p2 ∧ d1 = d2 := by
  rcases List.append_eq_append_iff.mp h with ⟨a', ha1, ha2⟩ | ⟨c', hc1, hc2⟩
  · cases ha' : a' with
    | nil =>
      subst ha'
      simp only [List.append_nil] at ha1
      simp only [List.nil_append, List.cons.injEq] at ha2
      exact ⟨ha1.symm, ha2.2.2⟩
    | cons x t =>
      subst ha'
      have := colon_mem (by simp) ha2
      exact absurd (hd1 _ this) (by decide)
  · cases hc' : c' with
    | nil =>
      subst hc'
      simp only [List.append_nil] at hc1
      simp only [List.nil_append, List.cons.injEq] at hc2
      exact ⟨hc1, hc2.2.2.symm⟩
    | cons x t =>
      subst hc'
      have := colon_mem (by simp) hc2
      exact absurd (hd2 _ this) (by decide)

/-- For records with a truthy `navId` and a non-empty `pageUrl`, the
cohort key agrees exactly with the `(pageUrl, navId)` pair. -/
lemma pageKey_eq_iff (r1 r2 : Request) (h1 : r1.navId ≠ 0) (h2 : r2.navId ≠ 0)
    (hp1 : r1.pageUrl ≠ "") (hp2 : r2.pageUrl ≠ "") :
    pageKeyOf r1 = pageKeyOf r2 ↔ (r1.pageUrl = r2.pageUrl ∧ r1.navId = r2.navId) := by
  constructor
  · intro h
    rw [pageKeyOf, pageKeyOf] at h
    simp only [hp1, hp2, h1, h2, if_true, ite_true, if_pos, ne_eq, not_false_eq_true] at h
    have hd := congrArg String.data h
    rw [String.data_append, String.data_append, String.data_append, String.data_append] at hd
    rw [List.append_assoc, List.append_assoc] at hd
    have hd' : r1.pageUrl.data ++ ':' :: ':' :: (natToStr r1.navId).data =
        r2.pageUrl.data ++ ':' :: ':' :: (natToStr r2.navId).data := hd
    obtain ⟨hpe, hde⟩ := sep_digits_inj _ _ _ _
      (natToDigits_isDigit r1.navId) (natToDigits_isDigit r2.navId) hd'
    refine ⟨String.ext hpe, natToDigits_injective hde⟩
  · rintro ⟨hpe, hne⟩
    rw [pageKeyOf, pageKeyOf, hpe, hne]
    simp [h2, hp2]

/-- Spec wording of the per-sibling applicability check used by the
page-scope count: no conditions, or the `conditionsLogic` combination of
the condition outcomes. -/
def specCondPass (rx : RegexOracle) (a : Assertion) (item : Request) : Bool :=
  a.conditions.isEmpty ||
    (if a.conditionsLogic = "any" then
      a.conditions.any fun c => evaluateCondition rx c (resolveConditionValue c item).values
    else a.conditions.all fun c => evaluateCondition rx c (resolveConditionValue c item).values)

/-- Spec wording of the per-sibling validation check: all validations
evaluate true. -/
def specValidPass (rx : RegexOracle) (a : Assertion) (item : Request) : Bool :=
  a.validations.all fun c => evaluateCondition rx c (resolveConditionValue c item).values

lemma map_any_id {α : Type} (l : List α) (f : α → Bool) : (l.map f).any id = l.any f := by
  induction l with
  | nil => rfl
  | cons a t ih => simp [ih]

lemma map_all_id {α : Type} (l : List α) (f : α → Bool) : (l.map f).all id = l.all f := by
  induction l with
  | nil => rfl
  | cons a t ih => simp [ih]

/-- `countAssertionMatches` counts exactly the sibling records with the
same cohort key whose conditions and validations both pass. -/
lemma countAssertionMatches_eq (rx : RegexOracle) (a : Assertion)
    (allReqs : List Request) (req : Request) :
    countAssertionMatches rx a allReqs req =
      (allReqs.filter fun item =>
        (pageKeyOf item == pageKeyOf req) && specCondPass rx a item &&
          specValidPass rx a item).length := by
  unfold countAssertionMatches
  dsimp only
  congr 1
  apply List.filter_congr
  intro item _
  by_cases hk : pageKeyOf item = pageKeyOf req
  · simp only [hk, ne_eq, not_true_eq_false, if_false, beq_self_eq_true, Bool.true_and]
    cases hc : a.conditions with
    | nil =>
      simp [specCondPass, specValidPass, hc, map_all_id]
    | cons c cs =>
      simp only [specCondPass, specValidPass, hc, List.isEmpty_cons, Bool.false_or]
      by_cases hl : a.conditionsLogic = "any"
      · simp only [hl, if_true, List.length_cons, ne_eq, Nat.succ_ne_zero,
          not_false_eq_true, if_pos, map_any_id]
        cases hany : (c :: cs).any fun x =>
            evaluateCondition rx x (resolveConditionValue x item).values <;>
          simp [hany, map_all_id]
      · simp only [hl, if_false, List.length_cons, ne_eq, Nat.succ_ne_zero,
          not_false_eq_true, if_pos, map_all_id]
        cases hall : (c :: cs).all fun x =>
            evaluateCondition rx x (resolveConditionValue x item).values <;>
          simp [hall, map_all_id]
  · simp [hk, Ne.symm hk]

/-- C4: for an applicable page-scope assertion with a count mode and a
defined expected value, the emitted status is the count comparison (it
replaces the request-scope result), the count diagnostic carries the
actual count, the count is the number of sibling records sharing the
cohort key whose conditions (under `conditionsLogic`) and validations all
pass, the cohort key agrees with the `(pageUrl, navId)` pair on records
with a truthy `navId` and non-empty `pageUrl`, and a non-finite expected
value always fails. -/
theorem c4_page_scope_count (rx : RegexOracle) (req : Request) (allReqs : List Request)
    (a : Assertion) (v : JVal)
    (happ : (resolveConditionResults rx a.conditions
      (if a.conditionsLogic = "" then "all" else a.conditionsLogic) req false).2 = true)
    (hscope : a.scope = "page") (hcount : a.count ≠ "") (hvalue : a.value = some v) :
    ((evalOneAssertion rx req allReqs a).status = "passed" ↔
      evaluateCount a.count (countAssertionMatches rx a allReqs req) v = true) ∧
    ((evalOneAssertion rx req allReqs a).count =
      some ⟨a.count, v, countAssertionMatches rx a allReqs req⟩) ∧
    (countAssertionMatches rx a allReqs req =
      (allReqs.filter fun item =>
        (pageKeyOf item == pageKeyOf req) && specCondPass rx a item &&
          specValidPass rx a item).length) ∧
    (∀ r1 r2 : Request, r1.navId ≠ 0 → r2.navId ≠ 0 → r1.pageUrl ≠ "" → r2.pageUrl ≠ "" →
      (pageKeyOf r1 = pageKeyOf r2 ↔ (r1.pageUrl = r2.pageUrl ∧ r1.navId = r2.navId))) ∧
    (v.toNumber.isFinite = false → (evalOneAssertion rx req allReqs a).status = "failed") := by
  have hrec := evalOneAssertion_page_count rx req allReqs a v happ hscope hcount hvalue
  refine ⟨?_, by rw [hrec], countAssertionMatches_eq rx a allReqs req, pageKey_eq_iff, ?_⟩
  · rw [hrec]
    cases hb : evaluateCount a.count (countAssertionMatches rx a allReqs req) v with
    | false =>
      simp only [hb, Bool.false_eq_true, if_false]
      exact ⟨fun h => absurd h (by decide), fun h => absurd h (by decide)⟩
    | true => simp [hb]
  · intro hfin
    rw [hrec]
    have : evaluateCount a.count (countAssertionMatches rx a allReqs req) v = false := by
      simp [evaluateCount, hfin]
    simp [this]

/-- C4 witness: three sibling records share a cohort, two satisfy the
validation; `count: exactly, value: 2` passes, `value: 1` fails, and
`count: at_most, value: 3` passes. -/
theorem c4_witness :
    ((evalOneAssertion regexNever
        { pageUrl := "p", body := some { parsed := .jobj [("x", .jstr "1")] } }
        [{ pageUrl := "p", body := some { parsed := .jobj [("x", .jstr "1")] } },
         { pageUrl := "p", body := some { parsed := .jobj [("x", .jstr "1")] } },
         { pageUrl := "p", body := some { parsed := .jobj [("x", .jstr "9")] } }]
        { id := "w", scope := "page", count := "exactly", value := some (.jnum 2),
          validations := [{ path := "x", operator := "equals", expected := .jstr "1" }] }).status =
      "passed") ∧
    ((evalOneAssertion regexNever
        { pageUrl := "p", body := some { parsed := .jobj [("x", .jstr "1")] } }
        [{ pageUrl := "p", body := some { parsed := .jobj [("x", .jstr "1")] } },
         { pageUrl := "p", body := some { parsed := .jobj [("x", .jstr "1")] } },
         { pageUrl := "p", body := some { parsed := .jobj [("x", .jstr "9")] } }]
        { id := "w", scope := "page", count := "exactly", value := some (.jnum 1),
          validations := [{ path := "x", operator := "equals", expected := .jstr "1" }] }).status ≠
      "passed") ∧
    ((evalOneAssertion regexNever
        { pageUrl := "p", body := some { parsed := .jobj [("x", .jstr "1")] } }
        [{ pageUrl := "p", body := some { parsed := .jobj [("x", .jstr "1")] } },
         { pageUrl := "p", body := some { parsed := .jobj [("x", .jstr "1")] } },
         { pageUrl := "p", body := some { parsed := .jobj [("x", .jstr "9")] } }]
        { id := "w", scope := "page", count := "at_most", value := some (.jnum 3),
          validations := [{ path := "x", operator := "equals", expected := .jstr "1" }] }).status =
      "passed") := by
  refine ⟨?_, ?_, ?_⟩
  · exact ((c4_page_scope_count regexNever _ _ _ (.jnum 2)
      (by decide) rfl (by decide) rfl).1).mpr (by decide)
  · intro h
    have := ((c4_page_scope_count regexNever _ _ _ (.jnum 1)
      (by decide) rfl (by decide) rfl).1).mp h
    exact absurd this (by decide)
  · exact ((c4_page_scope_count regexNever _ _ _ (.jnum 3)
      (by decide) rfl (by decide) rfl).1).mpr (by decide)

/-- C5 counterexample: for a record whose owning session exists but has
UAT disabled, the engine produced zero result entries, yet the record's
`uat` is `null` — there is no `'not-applicable'` status, contradicting the
claim's "including … when UAT is not enabled". -/
theorem c5_counterexample :
    ¬((evaluateUatForRequest regexNever { sessionId := "s1" }
        [{ id := "s1", uatEnabled := false }] [] []).map Uat.status =
      some "not-applicable") := by
  decide

/-- C5 (amended): when the owning session is missing or not UAT-enabled,
`uat` becomes `null` (no status at all); with UAT enabled, a missing
per-site config or a config without an assertion array yields status
`'not-applicable'` with no entries; otherwise the status is
`'not-applicable'` exactly when the engine produced zero result entries,
and `'done'` otherwise. -/
theorem c5_uat_status (rx : RegexOracle) :
    (∀ (entry : Request) (sessions : List Session)
        (cfgs : List (String × UatConfig)) (reqs : List Request),
      sessions.find? (fun s => s.id == entry.sessionId) = none →
      evaluateUatForRequest rx entry sessions cfgs reqs = none) ∧
    (∀ (entry : Request) (sessions : List Session)
        (cfgs : List (String × UatConfig)) (reqs : List Request) (session : Session),
      sessions.find? (fun s => s.id == entry.sessionId) = some session →
      session.uatEnabled = false →
      evaluateUatForRequest rx entry sessions cfgs reqs = none) ∧
    (∀ (entry : Request) (sessions : List Session)
        (cfgs : List (String × UatConfig)) (reqs : List Request) (session : Session),
      sessions.find? (fun s => s.id == entry.sessionId) = some session →
      session.uatEnabled = true →
      (if session.site ≠ "" then cfgs.lookup session.site else none) = none →
      evaluateUatForRequest rx entry sessions cfgs reqs = some ⟨"not-applicable", []⟩) ∧
    (∀ (entry : Request) (sessions : List Session)
        (cfgs : List (String × UatConfig)) (reqs : List Request)
        (session : Session) (cfg : UatConfig),
      sessions.find? (fun s => s.id == entry.sessionId) = some session →
      session.uatEnabled = true →
      (if session.site ≠ "" then cfgs.lookup session.site else none) = some cfg →
      cfg.assertions = none →
      evaluateUatForRequest rx entry sessions cfgs reqs = some ⟨"not-applicable", []⟩) ∧
    (∀ (entry : Request) (sessions : List Session)
        (cfgs : List (String × UatConfig)) (reqs : List Request)
        (session : Session) (cfg : UatConfig) (asserts : List Assertion),
      sessions.find? (fun s => s.id == entry.sessionId) = some session →
      session.uatEnabled = true →
      (if session.site ≠ "" then cfgs.lookup session.site else none) = some cfg →
      cfg.assertions = some asserts →
      evaluateUatForRequest rx entry sessions cfgs reqs =
        some ⟨if (evaluateAssertionsForRequest rx (some entry) asserts
            (reqs.filter fun r => r.sessionId == entry.sessionId)
            ⟨cfg.global, normServiceId (some entry.serviceId)⟩).length = 0
          then "not-applicable" else "done",
          evaluateAssertionsForRequest rx (some entry) asserts
            (reqs.filter fun r => r.sessionId == entry.sessionId)
            ⟨cfg.global, normServiceId (some entry.serviceId)⟩⟩) := by
  refine ⟨?_, ?_, ?_, ?_, ?_⟩
  · intro entry sessions cfgs reqs hfind
    simp [evaluateUatForRequest, hfind]
  · intro entry sessions cfgs reqs session hfind hen
    simp [evaluateUatForRequest, hfind, hen]
  · intro entry sessions cfgs reqs session hfind hen hcfg
    simp only [evaluateUatForRequest, hfind, hen, Bool.not_true, Bool.false_eq_true,
      if_false, hcfg]
  · intro entry sessions cfgs reqs session cfg hfind hen hcfg hass
    simp only [evaluateUatForRequest, hfind, hen, Bool.not_true, Bool.false_eq_true,
      if_false, hcfg, hass]
  · intro entry sessions cfgs reqs session cfg asserts hfind hen hcfg hass
    simp only [evaluateUatForRequest, hfind, hen, Bool.not_true, Bool.false_eq_true,
      if_false, hcfg, hass]
    by_cases hz : (evaluateAssertionsForRequest rx (some entry) asserts
        (reqs.filter fun r => r.sessionId == entry.sessionId)
        ⟨cfg.global, normServiceId (some entry.serviceId)⟩).length = 0
    · simp only [hz, if_true, if_pos]
      rw [List.length_eq_zero] at hz
      rw [hz]
    · simp only [hz, if_false, if_neg hz]

/-- C5 witness: a UAT-disabled session yields `uat = null`; an enabled,
configured session with one ungated assertion yields status `done`. -/
theorem c5_witness :
    evaluateUatForRequest regexNever { sessionId := "s1" }
      [{ id := "s1", uatEnabled := false }] [] [] = none ∧
    (evaluateUatForRequest regexNever { sessionId := "s1" }
        [{ id := "s1", uatEnabled := true, site := "site" }]
        [("site", { assertions := some [{ id := "a1" }] })] []).map Uat.status =
      some "done" := by
  constructor
  · exact (c5_uat_status regexNever).2.1 _ _ _ _
      { id := "s1", uatEnabled := false } rfl rfl
  · rw [(c5_uat_status regexNever).2.2.2.2
      { sessionId := "s1" }
      [{ id := "s1", uatEnabled := true, site := "site" }]
      [("site", { assertions := some [{ id := "a1" }] })] []
      { id := "s1", uatEnabled := true, site := "site" }
      { assertions := some [{ id := "a1" }] } [{ id := "a1" }] rfl rfl rfl rfl]
    decide

lemma utf8DecodeLossyAux_replicate_a (fuel n : ℕ) (h : n < fuel) :
    utf8DecodeLossyAux fuel (List.replicate n 97) = List.replicate n 'a' := by
  induction fuel generalizing n with
  | zero => omega
  | succ f ih =>
    cases n with
    | zero => rfl
    | succ k =>
      rw [List.replicate_succ, List.replicate_succ]
      rw [show utf8DecodeLossyAux (f + 1) (97 :: List.replicate k 97) =
          Char.ofNat 97 :: utf8DecodeLossyAux f (List.replicate k 97) from by
        simp [utf8DecodeLossyAux]]
      rw [ih k (by omega)]

lemma utf8DecodeLossy_replicate_a (n : ℕ) :
    utf8DecodeLossy (List.replicate n 97) = List.replicate n 'a' := by
  rw [utf8DecodeLossy, List.length_replicate]
  exact utf8DecodeLossyAux_replicate_a (n + 1) n (by omega)

lemma jsStrLen_replicate_a (n : ℕ) : jsStrLen ⟨List.replicate n 'a'⟩ = n := by
  simp [jsStrLen, jsCharLen, List.map_replicate]

/-- C8: a raw body whose merged bytes decode to text longer than 200,000
UTF-16 units parses to an opaque `text` body with `parsed: null` and
`truncated: true` — the oversized text is never parsed as JSON or form
data. -/
theorem c8_parseRawBody_truncates (entries : List RawEntry) (ct : String)
    (hne : entries.length ≠ 0)
    (hlong : jsStrLen (decodeBytes (mergeRawBytes entries)) > MAX_BODY_CHARS) :
    parseRawBody { formData := none, raw := some entries } ct =
      some { btype := "text", contentType := ct,
             raw := some (jsSliceUnits (decodeBytes (mergeRawBytes entries)) MAX_BODY_CHARS),
             parsed := .jnull, truncated := true } := by
  simp [parseRawBody, hne, hlong]

lemma mergeRawBytes_single (l : List ℕ) : mergeRawBytes [some l] = l := by
  simp [mergeRawBytes]

lemma replicate_ne_nil {α : Type} (n : ℕ) (b : α) (h : n ≠ 0) :
    List.replicate n b ≠ [] := by
  intro hnil
  have hlen := congrArg List.length hnil
  rw [List.length_replicate, List.length_nil] at hlen
  exact h hlen

lemma decodeBytes_ne_nil (bytes : List ℕ) (h : bytes ≠ []) :
    decodeBytes bytes = ⟨utf8DecodeLossy bytes⟩ := by
  have hb : bytes.isEmpty = false := by
    cases bytes with
    | nil => exact absurd rfl h
    | cons a t => rfl
  rw [decodeBytes, hb]
  simp

/-- C8 witness: 200,001 ASCII bytes decode to 200,001 characters and
produce the truncated opaque body. -/
theorem c8_witness :
    (parseRawBody { formData := none, raw := some [some (List.replicate 200001 97)] } "").map
      (fun b => (b.btype, b.truncated, b.parsed)) = some ("text", true, .jnull) := by
  have h1 : jsStrLen (decodeBytes (mergeRawBytes [some (List.replicate 200001 97)])) =
      200001 := by
    rw [mergeRawBytes_single,
      decodeBytes_ne_nil _ (replicate_ne_nil _ _ (by decide)),
      utf8DecodeLossy_replicate_a, jsStrLen_replicate_a]
  rw [c8_parseRawBody_truncates [some (List.replicate 200001 97)] ""
    (by decide) (by rw [h1]; decide)]
  rfl

/-! Reconstruction and decoding lemmas for `parseKeyValuePairs` (C9). -/

/-- Join segments with a separator character (inverse of a
single-character split). -/
def joinSep (sep : Char) : List (List Char) → List Char
  | [] => []
  | [x] => x
  | x :: rest => x ++ sep :: joinSep sep rest

lemma splitOnPred_ne_nil (p : Char → Bool) (l : List Char) : splitOnPred p l ≠ [] := by
  cases l with
  | nil => simp [splitOnPred]
  | cons c rest =>
    simp only [splitOnPred]
    by_cases hc : p c
    · simp [hc]
    · simp only [hc, if_false, Bool.false_eq_true]
      cases splitOnPred p rest <;> simp

lemma joinSep_splitOnPred (c : Char) (l : List Char) :
    joinSep c (splitOnPred (· = c) l) = l := by
  induction l with
  | nil => rfl
  | cons x rest ih =>
    obtain ⟨h, t, hr⟩ : ∃ h t, splitOnPred (· = c) rest = h :: t := by
      cases hsp : splitOnPred (· = c) rest with
      | nil => exact absurd hsp (splitOnPred_ne_nil _ _)
      | cons h t => exact ⟨h, t, rfl⟩
    rw [hr] at ih
    simp only [splitOnPred, hr]
    by_cases hx : x = c
    · rw [if_pos (by simp [hx])]
      rw [show joinSep c ([] :: h :: t) = [] ++ c :: joinSep c (h :: t) from rfl]
      rw [ih]
      simp [hx]
    · rw [if_neg (by simp [hx])]
      cases t with
      | nil =>
        rw [show joinSep c [x :: h] = x :: h from rfl]
        rw [show joinSep c [h] = h from rfl] at ih
        rw [ih]
      | cons t1 ts =>
        rw [show joinSep c ((x :: h) :: t1 :: ts) =
          (x :: h) ++ c :: joinSep c (t1 :: ts) from rfl]
        rw [show joinSep c (h :: t1 :: ts) = h ++ c :: joinSep c (t1 :: ts) from rfl] at ih
        rw [← ih]
        simp

lemma breakOnEq_reconstruct (l : List Char) (h : '=' ∈ l) :
    ∃ v, (breakOnEq l).2 = some v ∧ (breakOnEq l).1 ++ '=' :: v = l := by
  induction l with
  | nil => cases h
  | cons c rest ih =>
    by_cases hc : c = '='
    · subst hc
      exact ⟨rest, rfl, rfl⟩
    · have hrest : '=' ∈ rest := by
        cases h with
        | head => exact absurd rfl hc
        | tail _ hm => exact hm
      obtain ⟨v, hv1, hv2⟩ := ih hrest
      have hb : breakOnEq (c :: rest) = (c :: (breakOnEq rest).1, (breakOnEq rest).2) := by
        simp [breakOnEq, hc]
      rw [hb]
      exact ⟨v, hv1, by rw [List.cons_append, hv2]⟩

lemma pdTokensAux_no_percent (fuel : ℕ) (l : List Char) (hf : l.length < fuel)
    (h : '%' ∉ l) : pdTokensAux fuel l = some (l.map PDTok.lit) := by
  induction fuel generalizing l with
  | zero => omega
  | succ f ih =>
    cases l with
    | nil => rfl
    | cons c rest =>
      have hc : c ≠ '%' := fun hx => h (hx ▸ List.mem_cons_self _ _)
      have hrest : '%' ∉ rest := fun hx => h (List.mem_cons_of_mem _ hx)
      rw [show pdTokensAux (f + 1) (c :: rest) =
          (pdTokensAux f rest).map (PDTok.lit c :: ·) from by
        simp [pdTokensAux, hc]]
      rw [ih rest (by simp at hf; omega) hrest]
      rfl

lemma pdTokens_no_percent (l : List Char) (h : '%' ∉ l) :
    pdTokens l = some (l.map PDTok.lit) :=
  pdTokensAux_no_percent (l.length + 1) l (by omega) h

lemma pdDecodeAux_lits (fuel : ℕ) (l : List Char) (hf : l.length < fuel) :
    pdDecodeAux fuel (l.map PDTok.lit) = some l := by
  induction fuel generalizing l with
  | zero => omega
  | succ f ih =>
    cases l with
    | nil => rfl
    | cons c rest =>
      rw [List.map_cons]
      rw [show pdDecodeAux (f + 1) (PDTok.lit c :: rest.map PDTok.lit) =
          (pdDecodeAux f (rest.map PDTok.lit)).map (c :: ·) from rfl]
      rw [ih rest (by simp at hf; omega)]
      rfl

lemma pdDecode_lits (l : List Char) : pdDecode (l.map PDTok.lit) = some l := by
  rw [pdDecode, List.length_map]
  exact pdDecodeAux_lits (l.length + 1) l (by omega)

/-- A percent-free string decodes to itself. -/
lemma jsDecodeURIComponent_no_percent (s : String) (h : '%' ∉ s.data) :
    jsDecodeURIComponent s = some s := by
  rw [jsDecodeURIComponent, pdTokens_no_percent s.data h]
  rw [show (some (s.data.map PDTok.lit)).bind pdDecode = pdDecode (s.data.map PDTok.lit)
    from rfl]
  rw [pdDecode_lits]
  rfl

lemma safeDecode_no_percent (s : String) (h : '%' ∉ s.data) : safeDecode s = s := by
  rw [safeDecode, jsDecodeURIComponent_no_percent s h]
  rfl

lemma decodePlus_no_percent (s : String) (h : '%' ∉ s.data) :
    '%' ∉ (decodePlus s).data := by
  intro hmem
  rw [decodePlus] at hmem
  obtain ⟨c, hc, hfc⟩ := List.mem_map.mp hmem
  by_cases hplus : c = '+'
  · simp [hplus] at hfc
  · simp [hplus] at hfc
    exact h (hfc ▸ hc)

/-- The spec's "re-join the pairs": raw keys and raw values joined with
`=` and `&`. -/
def reconstructPairs (ps : List Param) : String :=
  ⟨joinSep '&' (ps.map fun p => p.rawKey.data ++ '=' :: p.rawValue.data)⟩

/-- C9: `parseKeyValuePairs` splits on `&` and on the first `=` of each
pair, keeping `rawKey`/`rawValue` verbatim — for inputs whose `&`-segments
are non-empty and each contain `=`, re-joining the raw pairs reconstructs
the original string; decoded `key`/`value` are obtained by `+`→space
followed by percent-decoding; and decoding never touches any character
other than `+` and percent-escapes, so for percent-free raw text the
decoded text is the raw text with only `+` replaced by space — letter case
is never altered. -/
theorem c9_parseKeyValuePairs_spec (raw : String) :
    ((∀ seg ∈ splitOnPred (· = '&') raw.data, seg ≠ [] ∧ '=' ∈ seg) →
      reconstructPairs (parseKeyValuePairs raw true) = raw) ∧
    (∀ p ∈ parseKeyValuePairs raw true,
      p.key = safeDecode (decodePlus p.rawKey) ∧
      p.value = safeDecode (decodePlus p.rawValue)) ∧
    (∀ p ∈ parseKeyValuePairs raw true,
      ('%' ∉ p.rawKey.data →
        p.key.data = p.rawKey.data.map fun c => if c = '+' then ' ' else c) ∧
      ('%' ∉ p.rawValue.data →
        p.value.data = p.rawValue.data.map fun c => if c = '+' then ' ' else c)) := by
  refine ⟨?_, ?_, ?_⟩
  · intro hsegs
    by_cases hraw : raw = ""
    · subst hraw
      rfl
    · rw [parseKeyValuePairs, if_neg hraw]
      have hfilter : (splitOnPred (· = '&') raw.data).filter (· ≠ []) =
          splitOnPred (· = '&') raw.data := by
        apply List.filter_eq_self.mpr
        intro seg hseg
        simpa using (hsegs seg hseg).1
      rw [hfilter, reconstructPairs]
      rw [List.map_map]
      have hmap : (splitOnPred (· = '&') raw.data).map
          ((fun p : Param => p.rawKey.data ++ '=' :: p.rawValue.data) ∘ fun pair =>
            { rawKey := ⟨(breakOnEq pair).1⟩,
              rawValue := match (breakOnEq pair).2 with | some v => ⟨v⟩ | none => "",
              key := safeDecode (if true then decodePlus ⟨(breakOnEq pair).1⟩
                else ⟨(breakOnEq pair).1⟩),
              value := safeDecode (if true then decodePlus
                  (match (breakOnEq pair).2 with | some v => ⟨v⟩ | none => "")
                else match (breakOnEq pair).2 with | some v => ⟨v⟩ | none => "") }) =
          (splitOnPred (· = '&') raw.data).map id := by
        apply List.map_congr_left
        intro seg hseg
        obtain ⟨v, hv1, hv2⟩ := breakOnEq_reconstruct seg (hsegs seg hseg).2
        simp only [Function.comp, hv1, id]
        exact hv2
      rw [hmap, List.map_id, joinSep_splitOnPred]
  · intro p hp
    rw [parseKeyValuePairs] at hp
    by_cases hraw : raw = ""
    · simp [hraw] at hp
    · rw [if_neg hraw] at hp
      obtain ⟨pair, _, hpair⟩ := List.mem_map.mp hp
      subst hpair
      exact ⟨by simp, by simp⟩
  · intro p hp
    have hkv : p.key = safeDecode (decodePlus p.rawKey) ∧
        p.value = safeDecode (decodePlus p.rawValue) := by
      rw [parseKeyValuePairs] at hp
      by_cases hraw : raw = ""
      · simp [hraw] at hp
      · rw [if_neg hraw] at hp
        obtain ⟨pair, _, hpair⟩ := List.mem_map.mp hp
        subst hpair
        exact ⟨by simp, by simp⟩
    constructor
    · intro hnp
      rw [hkv.1, safeDecode_no_percent _ (decodePlus_no_percent _ hnp), decodePlus]
    · intro hnp
      rw [hkv.2, safeDecode_no_percent _ (decodePlus_no_percent _ hnp), decodePlus]

/-- C9 witness: a concrete form string round-trips, and decoding keeps
letter case while applying `+`→space. -/
theorem c9_witness :
    reconstructPairs (parseKeyValuePairs "Key=Va+l&b=2" true) = "Key=Va+l&b=2" ∧
    ∀ p ∈ parseKeyValuePairs "Key=Va+l&b=2" true,
      p.key.data = p.rawKey.data.map fun c => if c = '+' then ' ' else c := by
  have hparse : parseKeyValuePairs "Key=Va+l&b=2" true =
      [⟨"Key", "Va+l", "Key", "Va l"⟩, ⟨"b", "2", "b", "2"⟩] := by rfl
  constructor
  · exact (c9_parseKeyValuePairs_spec "Key=Va+l&b=2").1 (by decide)
  · intro p hp
    have hp' := hp
    rw [hparse] at hp'
    rcases List.mem_cons.mp hp' with rfl | hp2
    · exact ((c9_parseKeyValuePairs_spec "Key=Va+l&b=2").2.2 _ hp).1 (by decide)
    · rcases List.mem_cons.mp hp2 with rfl | hp3
      · exact ((c9_parseKeyValuePairs_spec "Key=Va+l&b=2").2.2 _ hp).1 (by decide)
      · cases hp3

end LaunchObserver
